import Mathlib

/-!
# Verification of the type-safe-storage facade and its value parser

This development shallowly embeds the runtime behaviour of the
`TypeSafeStorage` class (src/src/TypeSafeStorage.ts) and the `ValueParser`
class (an unnamed source file of the repository) in Lean.

Modelling decisions, stated once here:

* JavaScript runtime values flowing through the API are JSON-like values:
  `null`, booleans, numbers, strings, arrays and objects.  `undefined`,
  functions and other exotic values never flow through the typed API and are
  out of the model.
* JavaScript numbers are modelled as exact rationals (`ℚ`).  Binary floating
  point rounding, `NaN` and the infinities are outside the model (their
  semantics are not expressible in this embedding); all concrete inputs used
  below are exactly representable.  `parseFloat` and string-to-number
  coercion (`ToNumber`) return `Option ℚ`, with `none` playing the role of
  `NaN`, and the `Infinity` literal is not modelled.  Number-to-string
  conversion prints the exact finite decimal expansion, which agrees with
  JavaScript on every value with a finite decimal form.
* `JSON.parse` is modelled as an executable recursive-descent parser over the
  grammar of www.json.org (the grammar `JSON.parse` implements), using a
  recursion budget (`fuel`) that is always taken large enough; `JSON.parse`
  throwing a `SyntaxError` is modelled as `none`.  Escaped UTF-16 surrogate
  pairs and raw control characters inside string literals are rejected
  (Lean characters are Unicode scalars), and very large numbers that
  JavaScript would print in exponential notation are outside the model.
* The underlying `AsyncStorage` store is an external collaborator holding
  string keys and string values; it is modelled as an association list where
  a write prepends and a read takes the most recent entry, matching
  overwrite semantics.  Asynchrony and callbacks are dropped: every
  operation is modelled as a pure function of the store state, and a thrown
  exception (promise rejection) is an `Except.error`.
-/

/-- A JSON-representable JavaScript runtime value.  Object fields are kept
as an ordered association list, matching insertion order of a JS object. -/
inductive Json where
  | null
  | bool (b : Bool)
  | num (q : ℚ)
  | str (s : String)
  | arr (elements : List Json)
  | obj (fields : List (String × Json))

/-- `typeof v === "string"` for a modelled value. -/
def Json.isString : Json → Bool
  | .str _ => true
  | _ => false

/-! ## Decimal digit primitives shared by the number printers and parsers -/

/-- Is `c` one of the characters `0`-`9`? -/
def isDigitChar (c : Char) : Bool := 48 ≤ c.toNat && c.toNat ≤ 57

/-- Numeric value of a decimal digit character. -/
def digitVal (c : Char) : Nat := c.toNat - 48

/-- Decimal digit character for a value below 10. -/
def decDigitChar (d : Nat) : Char := Char.ofNat (48 + d)

/-- Horner fold turning a list of decimal digit characters into a number. -/
def foldDigits (acc : Nat) : List Char → Nat
  | [] => acc
  | c :: cs => foldDigits (acc * 10 + digitVal c) cs

/-- Decimal digit characters of `n`, most significant first; empty for `0`.
The first argument is a recursion budget; `n` itself is always enough. -/
def natDigitChars : Nat → Nat → List Char
  | 0, _ => []
  | fuel + 1, n => if n = 0 then [] else natDigitChars fuel (n / 10) ++ [decDigitChar (n % 10)]

/-- Decimal notation of a natural number (`"0"` for zero). -/
def natChars (n : Nat) : List Char := if n = 0 then ['0'] else natDigitChars n n

/-- Pad a digit string on the left with `0` up to width `k`. -/
def padZero (k : Nat) (ds : List Char) : List Char := List.replicate (k - ds.length) '0' ++ ds

/-- Longest decimal-digit prefix of a character list, and the remainder. -/
def spanDigits (cs : List Char) : List Char × List Char :=
  (cs.takeWhile isDigitChar, cs.dropWhile isDigitChar)

/-! ## Exact decimal printing of JavaScript numbers

A finite JavaScript number always has a finite decimal expansion (doubles
are dyadic).  For a rational whose reduced denominator divides a power of
ten we print that exact expansion, which is what JavaScript's
number-to-string conversion produces on such values. -/

/-- Multiplicity of the prime-like factor `p` in `n` (`0` when `p < 2` or
`n = 0`).  The first argument is a recursion budget; `n` is always enough. -/
def pValAux : Nat → Nat → Nat → Nat
  | 0, _, _ => 0
  | fuel + 1, p, n => if 2 ≤ p && n % p = 0 && n != 0 then pValAux fuel p (n / p) + 1 else 0

/-- Multiplicity of `p` in `n`. -/
def pVal (p n : Nat) : Nat := pValAux n p n

/-- Does `n` divide a power of ten (equivalently, `n = 2^a * 5^b`)? -/
def tenSmooth (n : Nat) : Bool := n == 2 ^ pVal 2 n * 5 ^ pVal 5 n

/-- The number of decimal fraction digits needed for `q`: the least `k`
with `q * 10^k` integral, whenever `q.den` is ten-smooth. -/
def decExp (q : ℚ) : Nat := max (pVal 2 q.den) (pVal 5 q.den)

/-- The character list JavaScript number-to-string conversion produces for a
finite-decimal value: optional minus sign, integer digits, and a fraction
part exactly when one is needed. -/
def numChars (q : ℚ) : List Char :=
  let k := decExp q
  let m := q.num * (10 : ℤ) ^ k / (q.den : ℤ)
  let n := m.natAbs
  let body :=
    if k = 0 then natChars n
    else natChars (n / 10 ^ k) ++ '.' :: padZero k (natChars (n % 10 ^ k))
  if m < 0 then '-' :: body else body

/-- JavaScript `String(q)` for a finite-decimal number. -/
def numToString (q : ℚ) : String := ⟨numChars q⟩

/-! ## `parseFloat` and string-to-number coercion (`ToNumber`)

`ValueParser.isNumber` evaluates `!isNaN(parsed) && parsed == value` where
`parsed = parseFloat(value)`: the loose equality coerces the string operand
with `ToNumber`, and is false when either side is `NaN`. -/

/-- JavaScript whitespace accepted by `parseFloat` and `ToNumber`. -/
def jsWs (c : Char) : Bool :=
  c == ' ' || c == '\t' || c == '\n' || c == '\r' || c == '\x0b' || c == '\x0c'

/-- Value of the decimal literal pieces: sign, integer digits, fraction
digits and a signed exponent (`esign` true means a negative exponent). -/
def decValue (neg : Bool) (ids fds : List Char) (esign : Bool) (eds : List Char) : ℚ :=
  let i : ℚ := (foldDigits 0 ids : ℕ)
  let mant : ℚ := if fds.isEmpty then i else i + (foldDigits 0 fds : ℕ) / (10 : ℚ) ^ fds.length
  let mant := if neg then -mant else mant
  if eds.isEmpty then mant
  else if esign then mant / (10 : ℚ) ^ foldDigits 0 eds else mant * (10 : ℚ) ^ foldDigits 0 eds

/-- Read an optional leading sign (`true` means negative). -/
def readSign (cs : List Char) : Bool × List Char :=
  if cs.head? = some '-' then (true, cs.drop 1)
  else if cs.head? = some '+' then (false, cs.drop 1)
  else (false, cs)

/-- Read an optional fraction part: digits following a dot, if a dot is
next. -/
def readFrac (cs : List Char) : List Char × List Char :=
  if cs.head? = some '.' then spanDigits (cs.drop 1) else ([], cs)

/-- Read an optional `parseFloat`-style exponent part: sign and digits after
`e`/`E`; an exponent marker without digits contributes nothing. -/
def readExpFloat (cs : List Char) : Bool × List Char :=
  if cs.head? = some 'e' ∨ cs.head? = some 'E' then
    let r := cs.drop 1
    if r.head? = some '-' then (true, (spanDigits (r.drop 1)).1)
    else if r.head? = some '+' then (false, (spanDigits (r.drop 1)).1)
    else (false, (spanDigits r).1)
  else (false, [])

/-- JavaScript `parseFloat`: skip leading whitespace, then read the longest
prefix shaped like a signed decimal literal; `none` when no digits are found
(`NaN`).  The `Infinity` literal is outside the model. -/
def parseFloatQ (s : String) : Option ℚ :=
  let cs := s.data.dropWhile jsWs
  let sp := readSign cs
  let ip := spanDigits sp.2
  let fp := readFrac ip.2
  if ip.1.isEmpty && fp.1.isEmpty then none
  else
    let ep := readExpFloat fp.2
    some (decValue sp.1 ip.1 fp.1 ep.1 ep.2)

/-- Value of a digit character in base up to 16, `none` outside the base. -/
def digitValB (b : Nat) (c : Char) : Option Nat :=
  let v :=
    if isDigitChar c then some (c.toNat - 48)
    else if 'a' ≤ c && c ≤ 'f' then some (c.toNat - 87)
    else if 'A' ≤ c && c ≤ 'F' then some (c.toNat - 55)
    else none
  match v with
  | some d => if d < b then some d else none
  | none => none

/-- Fold a whole character list as base-`b` digits; `none` on any invalid
digit. -/
def foldRadix (b : Nat) : Nat → List Char → Option Nat
  | acc, [] => some acc
  | acc, c :: cs =>
    match digitValB b c with
    | some d => foldRadix b (acc * b + d) cs
    | none => none

/-- The whole-string decimal branch of `ToNumber`: an optional sign, then
digits with optional fraction and exponent, consuming the entire input. -/
def decFull (cs : List Char) : Option ℚ :=
  let sp := readSign cs
  let ip := spanDigits sp.2
  let fp := readFrac ip.2
  if ip.1.isEmpty && fp.1.isEmpty then none
  else if fp.2.isEmpty then some (decValue sp.1 ip.1 fp.1 false [])
  else if fp.2.head? = some 'e' ∨ fp.2.head? = some 'E' then
    let sp2 := readSign (fp.2.drop 1)
    let ep := spanDigits sp2.2
    if ep.1.isEmpty then none
    else if ep.2.isEmpty then some (decValue sp.1 ip.1 fp.1 sp2.1 ep.1)
    else none
  else none

/-- The radix (16, 8 or 2) of a `0x`/`0o`/`0b` style literal head, `none`
when the input does not start that way. -/
def radixTag (cs : List Char) : Option Nat :=
  let x := (cs.drop 1).head?
  if cs.head? = some '0' then
    if x = some 'x' ∨ x = some 'X' then some 16
    else if x = some 'o' ∨ x = some 'O' then some 8
    else if x = some 'b' ∨ x = some 'B' then some 2
    else none
  else none

/-- JavaScript `ToNumber` on a string: trim whitespace, the empty string is
`0`, `0x`/`0o`/`0b` radix literals are unsigned whole-string literals, and
anything else must be a whole-string decimal literal; `none` is `NaN`.
The `Infinity` literal is outside the model. -/
def jsToNumber (s : String) : Option ℚ :=
  let cs := ((s.data.dropWhile jsWs).reverse.dropWhile jsWs).reverse
  if cs.isEmpty then some 0
  else
    match radixTag cs with
    | some b =>
      if (cs.drop 2).isEmpty then none
      else (foldRadix b 0 (cs.drop 2)).map fun n => (n : ℚ)
    | none => decFull cs

/-! ## `JSON.stringify` -/

/-- Lowercase hexadecimal digit character. -/
def hexChar (d : Nat) : Char := if d < 10 then decDigitChar d else Char.ofNat (87 + d)

/-- How `JSON.stringify` renders one character inside a string literal. -/
def escapeChar (c : Char) : List Char :=
  if c = '"' then ['\\', '"']
  else if c = '\\' then ['\\', '\\']
  else if c = '\x08' then ['\\', 'b']
  else if c = '\t' then ['\\', 't']
  else if c = '\n' then ['\\', 'n']
  else if c = '\x0c' then ['\\', 'f']
  else if c = '\r' then ['\\', 'r']
  else if c.toNat < 32 then ['\\', 'u', '0', '0', hexChar (c.toNat / 16), hexChar (c.toNat % 16)]
  else [c]

/-- Escape every character of a string body. -/
def escapeList : List Char → List Char
  | [] => []
  | c :: cs => escapeChar c ++ escapeList cs

mutual

/-- `JSON.stringify` rendered as a character list (default settings: no
whitespace, object fields in insertion order). -/
def printJ : Json → List Char
  | .null => ['n', 'u', 'l', 'l']
  | .num q => numChars q
  | .str s => '"' :: (escapeList s.data ++ ['"'])
  | .bool false => ['f', 'a', 'l', 's', 'e']
  | .bool true => ['t', 'r', 'u', 'e']
  | .arr es => '[' :: (printElems es ++ [']'])
  | .obj fs => '\x7b' :: (printFields fs ++ ['\x7d'])

/-- Comma-separated rendering of array elements. -/
def printElems : List Json → List Char
  | [] => []
  | [e] => printJ e
  | e :: es => printJ e ++ ',' :: printElems es

/-- Comma-separated rendering of object fields. -/
def printFields : List (String × Json) → List Char
  | [] => []
  | [(k, v)] => '"' :: (escapeList k.data ++ '"' :: ':' :: printJ v)
  | (k, v) :: fs => ('"' :: (escapeList k.data ++ '"' :: ':' :: printJ v)) ++ ',' :: printFields fs

end

/-- JavaScript `JSON.stringify` on a modelled value. -/
def jsonStringify (v : Json) : String := ⟨printJ v⟩

/-! ## `JSON.parse` -/

/-- The four whitespace characters of the JSON grammar. -/
def jsonWsChar (c : Char) : Bool := c == ' ' || c == '\t' || c == '\n' || c == '\r'

/-- Decode a single-character JSON string escape. -/
def escDecode (e : Char) : Option Char :=
  if e = '"' then some '"'
  else if e = '\\' then some '\\'
  else if e = '/' then some '/'
  else if e = 'b' then some '\x08'
  else if e = 'f' then some '\x0c'
  else if e = 'n' then some '\n'
  else if e = 'r' then some '\r'
  else if e = 't' then some '\t'
  else none

/-- Value of a `\uXXXX` escape from its four hex digits. -/
def unhex4 (a b c d : Char) : Option Nat :=
  match digitValB 16 a, digitValB 16 b, digitValB 16 c, digitValB 16 d with
  | some x, some y, some z, some w => some (x * 4096 + y * 256 + z * 16 + w)
  | _, _, _, _ => none

/-- Parse the body of a JSON string literal after its opening quote,
returning the decoded characters and the input after the closing quote.
Raw control characters are invalid; `\uXXXX` escapes must denote a Unicode
scalar (lone surrogates are outside the model). -/
def parseStringBody : List Char → Option (List Char × List Char)
  | [] => none
  | '"' :: rest => some ([], rest)
  | '\\' :: 'u' :: a :: b :: c :: d :: rest =>
    match unhex4 a b c d with
    | some n =>
      if n < 55296 ∨ (57343 < n ∧ n < 1114112) then
        (parseStringBody rest).map fun p => (Char.ofNat n :: p.1, p.2)
      else none
    | none => none
  | '\\' :: e :: rest =>
    match escDecode e with
    | some c => (parseStringBody rest).map fun p => (c :: p.1, p.2)
    | none => none
  | c :: rest =>
    if c.toNat < 32 then none
    else (parseStringBody rest).map fun p => (c :: p.1, p.2)

/-- Parse the optional exponent part of a JSON number and assemble the
value (strict grammar: an `e`/`E` must be followed by digits). -/
def parseNumExp (neg : Bool) (ids fds : List Char) (cs : List Char) : Option (ℚ × List Char) :=
  if cs.head? = some 'e' ∨ cs.head? = some 'E' then
    let sp := readSign (cs.drop 1)
    let ep := spanDigits sp.2
    if ep.1.isEmpty then none else some (decValue neg ids fds sp.1 ep.1, ep.2)
  else some (decValue neg ids fds false [], cs)

/-- Parse a JSON number literal (strict grammar: no plus sign, no leading
zeros, a fraction part must contain digits), returning its value and the
remaining input. -/
def parseNum (cs : List Char) : Option (ℚ × List Char) :=
  let neg : Bool := cs.head? == some '-'
  let ip := spanDigits (if neg then cs.drop 1 else cs)
  if ip.1.isEmpty then none
  else if ip.1.head? = some '0' ∧ ip.1.length ≠ 1 then none
  else if ip.2.head? = some '.' then
    let fp := spanDigits (ip.2.drop 1)
    if fp.1.isEmpty then none else parseNumExp neg ip.1 fp.1 fp.2
  else parseNumExp neg ip.1 [] ip.2

/-- Parser mode: a single value, the elements of a non-empty array, or the
fields of a non-empty object. -/
inductive PMode where
  | val
  | elems
  | fields

/-- Parser result for each mode. -/
inductive PRes where
  | v (j : Json)
  | es (elements : List Json)
  | fs (fields : List (String × Json))

/-- The recursive core of `JSON.parse`.  The recursion budget only bounds
nesting of the mutually recursive productions; one more than the input
length is always sufficient. -/
def parseCore : Nat → PMode → List Char → Option (PRes × List Char)
  | 0, _, _ => none
  | fuel + 1, .val, cs =>
    match cs.dropWhile jsonWsChar with
    | [] => none
    | 'n' :: 'u' :: 'l' :: 'l' :: rest => some (.v .null, rest)
    | 't' :: 'r' :: 'u' :: 'e' :: rest => some (.v (.bool true), rest)
    | 'f' :: 'a' :: 'l' :: 's' :: 'e' :: rest => some (.v (.bool false), rest)
    | '"' :: rest =>
      match parseStringBody rest with
      | some (body, rest2) => some (.v (.str ⟨body⟩), rest2)
      | none => none
    | '[' :: rest =>
      match rest.dropWhile jsonWsChar with
      | ']' :: rest2 => some (.v (.arr []), rest2)
      | _ =>
        match parseCore fuel .elems rest with
        | some (.es es, rest2) => some (.v (.arr es), rest2)
        | _ => none
    | '\x7b' :: rest =>
      match rest.dropWhile jsonWsChar with
      | '\x7d' :: rest2 => some (.v (.obj []), rest2)
      | _ =>
        match parseCore fuel .fields rest with
        | some (.fs fs, rest2) => some (.v (.obj fs), rest2)
        | _ => none
    | c :: rest =>
      if c = '-' ∨ isDigitChar c then
        match parseNum (c :: rest) with
        | some (q, rest2) => some (.v (.num q), rest2)
        | none => none
      else none
  | fuel + 1, .elems, cs =>
    match parseCore fuel .val cs with
    | some (.v v, rest) =>
      match rest.dropWhile jsonWsChar with
      | ',' :: rest2 =>
        match parseCore fuel .elems rest2 with
        | some (.es es, rest3) => some (.es (v :: es), rest3)
        | _ => none
      | ']' :: rest2 => some (.es [v], rest2)
      | _ => none
    | _ => none
  | fuel + 1, .fields, cs =>
    match cs.dropWhile jsonWsChar with
    | '"' :: rest =>
      match parseStringBody rest with
      | some (kcs, rest2) =>
        match rest2.dropWhile jsonWsChar with
        | ':' :: rest3 =>
          match parseCore fuel .val rest3 with
          | some (.v v, rest4) =>
            match rest4.dropWhile jsonWsChar with
            | ',' :: rest5 =>
              match parseCore fuel .fields rest5 with
              | some (.fs fs, rest6) => some (.fs ((⟨kcs⟩, v) :: fs), rest6)
              | _ => none
            | '\x7d' :: rest5 => some (.fs [(⟨kcs⟩, v)], rest5)
            | _ => none
          | _ => none
        | _ => none
      | none => none
    | _ => none

/-- JavaScript `JSON.parse`: parse one value and require only whitespace to
remain; `none` models a thrown `SyntaxError`. -/
def jsonParse (s : String) : Option Json :=
  match parseCore (s.data.length + 1) .val s.data with
  | some (.v v, rest) => if (rest.dropWhile jsonWsChar).isEmpty then some v else none
  | _ => none

/-! ## Finite-decimal values

The numbers of a JavaScript value are always finite binary floats, hence
have finite decimal expansions; rationals without one are artifacts of the
`ℚ` idealisation.  `finDecJ` carves out the values every number of which
has a finite decimal expansion. -/

mutual

/-- Every number inside the value has a finite decimal expansion. -/
def finDecJ : Json → Bool
  | .num q => tenSmooth q.den
  | .arr es => finDecL es
  | .obj fs => finDecF fs
  | _ => true

/-- `finDecJ` on each element of a list. -/
def finDecL : List Json → Bool
  | [] => true
  | e :: es => finDecJ e && finDecL es

/-- `finDecJ` on each field value of a list. -/
def finDecF : List (String × Json) → Bool
  | [] => true
  | (_, v) :: fs => finDecJ v && finDecF fs

end

/-! ## The `ValueParser` class (unnamed source file, `part_001`) -/

/-- JavaScript truthiness of a modelled value (`NaN` is outside the
model). -/
def jsTruthy : Json → Bool
  | .null => false
  | .bool b => b
  | .num q => !(q == 0)
  | .str s => !(s == "")
  | .arr _ => true
  | .obj _ => true

/-- `typeof v === "object"` for a modelled value (true for `null`, arrays
and objects). -/
def jsTypeofObject : Json → Bool
  | .null => true
  | .arr _ => true
  | .obj _ => true
  | _ => false

/-- `ValueParser.stringify`: a string input is returned unchanged, anything
else is `JSON.stringify`ed. -/
def ValueParser.stringify (value : Json) : String :=
  match value with
  | .str s => s
  | v => jsonStringify v

/-- `ValueParser.isNumber`: `parseFloat(value)` is not `NaN` and is loosely
equal to `value`, where the loose equality coerces the string side with
`ToNumber` and is false when that coercion yields `NaN`. -/
def ValueParser.isNumber (value : String) : Bool :=
  match parseFloatQ value, jsToNumber value with
  | some p, some n => p == n
  | _, _ => false

/-- `ValueParser.isJSON`: the first character is `value[0]`, the last is
`value[value.length - 1]` (both undefined on the empty string, which makes
every comparison false). -/
def ValueParser.isJSON (value : String) : Bool :=
  (value.data.head? == some '\x7b' && value.data.getLast? == some '\x7d') ||
    (value.data.head? == some '[' && value.data.getLast? == some ']')

/-- `ValueParser.parseValue`: a string that looks numeric is `parseFloat`ed,
a string with bracket ends is `JSON.parse`d (a thrown `SyntaxError` is the
`.error` case), any other value is returned unchanged. -/
def ValueParser.parseValue (value : Json) : Except String Json :=
  match value with
  | .str s =>
    if ValueParser.isNumber s then
      match parseFloatQ s with
      | some q => .ok (.num q)
      | none => .ok (.num 0)
    else if ValueParser.isJSON s then
      match jsonParse s with
      | some v => .ok v
      | none => .error "SyntaxError: JSON.parse"
    else .ok (.str s)
  | v => .ok v

/-- `ValueParser.validateJSON`: throws unless the value is truthy and of
object type. -/
def ValueParser.validateJSON (value : Json) : Except String Unit :=
  if !jsTruthy value || !jsTypeofObject value then
    .error "AsyncStorage.mergeItem expects a JSON valid value"
  else .ok ()

/-! ## The underlying store and the `TypeSafeStorage` facade -/

/-- The external `AsyncStorage` keyspace: an association list from string
keys to raw string values, most recent write first. -/
abbrev Store := List (String × String)

/-- `AsyncStorage.getItem`: raw string for a key, `null` when absent. -/
def rawGet : Store → String → Option String
  | [], _ => none
  | (k, v) :: rest, key => if k = key then some v else rawGet rest key

/-- `AsyncStorage.setItem`: overwrite semantics via prepending. -/
def rawSet (st : Store) (k v : String) : Store := (k, v) :: st

/-- `AsyncStorage.removeItem`: drop every entry held under the key. -/
def rawRemove : Store → String → Store
  | [], _ => []
  | (k, v) :: rest, key => if k = key then rawRemove rest key else (k, v) :: rawRemove rest key

/-- `AsyncStorage.multiGet`: one `(key, raw-or-null)` pair per requested
key, in request order. -/
def rawMultiGet (st : Store) (keys : List String) : List (String × Option String) :=
  keys.map fun k => (k, rawGet st k)

/-- `AsyncStorage.multiSet`: write the pairs in order. -/
def rawMultiSet (st : Store) (pairs : List (String × String)) : Store :=
  pairs.foldl (fun s p => rawSet s p.1 p.2) st

/-- `AsyncStorage.multiRemove`. -/
def rawMultiRemove (st : Store) (keys : List String) : Store :=
  keys.foldl rawRemove st

/-- `TypeSafeStorage.stringify` (private helper, lines 204-209): a string
input is returned as-is, anything else is `JSON.stringify`ed. -/
def TypeSafeStorage.stringify (value : Json) : String :=
  match value with
  | .str s => s
  | v => jsonStringify v

/-- `TypeSafeStorage.getItem` (lines 99-105): read the raw string; `null`
(absent) is returned as-is, otherwise the raw string is `JSON.parse`d.  The
JavaScript return value is `null` for an absent key, which is the modelled
value `Json.null`; a `JSON.parse` throw rejects the promise. -/
def TypeSafeStorage.getItem (st : Store) (key : String) : Except String Json :=
  match rawGet st key with
  | none => .ok Json.null
  | some raw =>
    match jsonParse raw with
    | some v => .ok v
    | none => .error "SyntaxError: JSON.parse"

/-- `TypeSafeStorage.setItem` (lines 192-198): store `stringify(value)`
under `key`. -/
def TypeSafeStorage.setItem (st : Store) (key : String) (value : Json) : Store :=
  rawSet st key (TypeSafeStorage.stringify value)

/-- `TypeSafeStorage.mergeItem` (lines 111-117): the call is forwarded to
`AsyncStorage.mergeItem(key, JSON.stringify(value))` unconditionally — the
method performs no runtime validation of its own.  The model returns the
`(key, raw)` argument pair handed to the store's merge primitive; merging
itself happens inside the external store. -/
def TypeSafeStorage.mergeItem (key : String) (value : Json) : String × String :=
  (key, jsonStringify value)

/-- Parse each pair of a raw multi-read result the way `multiGet`'s `map`
callback does: `null` stays `null` (the absence marker), any other raw
string is `JSON.parse`d, and a parse throw rejects the whole batch. -/
def parsePairs : List (String × Option String) → Except String (List (String × Json))
  | [] => .ok []
  | (k, none) :: rest => (parsePairs rest).map fun l => (k, Json.null) :: l
  | (k, some raw) :: rest =>
    match jsonParse raw with
    | some v => (parsePairs rest).map fun l => (k, v) :: l
    | none => .error "SyntaxError: JSON.parse"

/-- `TypeSafeStorage.multiGet` (lines 124-133): delegate the raw multi-read
and parse each non-null raw value, preserving order. -/
def TypeSafeStorage.multiGet (st : Store) (keys : List String) :
    Except String (List (String × Json)) :=
  parsePairs (rawMultiGet st keys)

/-- `TypeSafeStorage.multiSet` (lines 167-175): stringify each value and
delegate the raw multi-write. -/
def TypeSafeStorage.multiSet (st : Store) (pairs : List (String × Json)) : Store :=
  rawMultiSet st (pairs.map fun p => (p.1, TypeSafeStorage.stringify p.2))

/-- `TypeSafeStorage.multiRemove` (lines 156-161): delegate the raw
multi-removal. -/
def TypeSafeStorage.multiRemove (st : Store) (keys : List String) : Store :=
  rawMultiRemove st keys

/-! ## Basic facts about digit characters -/

theorem isDigitChar_iff (c : Char) : isDigitChar c = true ↔ 48 ≤ c.toNat ∧ c.toNat ≤ 57 := by
  simp [isDigitChar]

theorem ne_of_digit (c d : Char) (h : isDigitChar c = true)
    (hd : d.toNat < 48 ∨ 57 < d.toNat) : c ≠ d := by
  rcases (isDigitChar_iff c).1 h with ⟨h1, h2⟩
  intro he
  subst he
  omega

theorem jsWs_of_digit (c : Char) (h : isDigitChar c = true) : jsWs c = false := by
  simp only [jsWs, Bool.or_eq_false_iff, beq_eq_false_iff_ne]
  exact ⟨⟨⟨⟨⟨ne_of_digit c _ h (by decide), ne_of_digit c _ h (by decide)⟩,
    ne_of_digit c _ h (by decide)⟩, ne_of_digit c _ h (by decide)⟩,
    ne_of_digit c _ h (by decide)⟩, ne_of_digit c _ h (by decide)⟩

theorem jsonWsChar_of_digit (c : Char) (h : isDigitChar c = true) : jsonWsChar c = false := by
  simp only [jsonWsChar, Bool.or_eq_false_iff, beq_eq_false_iff_ne]
  exact ⟨⟨⟨ne_of_digit c _ h (by decide), ne_of_digit c _ h (by decide)⟩,
    ne_of_digit c _ h (by decide)⟩, ne_of_digit c _ h (by decide)⟩

theorem foldDigits_append (a : Nat) (xs ys : List Char) :
    foldDigits a (xs ++ ys) = foldDigits (foldDigits a xs) ys := by
  induction xs generalizing a with
  | nil => rfl
  | cons c cs ih => exact ih (a * 10 + digitVal c)

theorem digitVal_decDigitChar (d : Nat) (h : d < 10) : digitVal (decDigitChar d) = d := by
  interval_cases d <;> decide

theorem isDigitChar_decDigitChar (d : Nat) (h : d < 10) :
    isDigitChar (decDigitChar d) = true := by
  interval_cases d <;> decide

/-! ## Printing natural numbers and reading the digits back -/

theorem natDigitChars_zero (fuel : Nat) : natDigitChars fuel 0 = [] := by
  cases fuel <;> simp [natDigitChars]

theorem natDigitChars_digits : ∀ fuel n, n ≤ fuel →
    ∀ c ∈ natDigitChars fuel n, isDigitChar c = true := by
  intro fuel
  induction fuel with
  | zero => intro n _ c hc; simp [natDigitChars] at hc
  | succ fuel ih =>
    intro n hn c hc
    by_cases h0 : n = 0
    · subst h0; simp [natDigitChars] at hc
    · rw [natDigitChars, if_neg h0] at hc
      have hlt := Nat.div_lt_self (Nat.pos_of_ne_zero h0) (by norm_num : 1 < 10)
      rcases List.mem_append.1 hc with h | h
      · exact ih (n / 10) (by omega) c h
      · simp only [List.mem_singleton] at h
        subst h
        exact isDigitChar_decDigitChar _ (Nat.mod_lt _ (by norm_num))

theorem foldDigits_single (x : Nat) (c : Char) : foldDigits x [c] = x * 10 + digitVal c := rfl

theorem natDigitChars_fold : ∀ (fuel n : Nat), n ≤ fuel → ∀ a : Nat,
    foldDigits a (natDigitChars fuel n) = a * 10 ^ (natDigitChars fuel n).length + n := by
  intro fuel
  induction fuel with
  | zero =>
    intro n hn a
    have h0 : n = 0 := by omega
    subst h0
    rw [natDigitChars_zero, List.length_nil, pow_zero, mul_one, Nat.add_zero]
    rfl
  | succ fuel ih =>
    intro n hn a
    by_cases h0 : n = 0
    · subst h0
      rw [natDigitChars_zero, List.length_nil, pow_zero, mul_one, Nat.add_zero]
      rfl
    · have hlt := Nat.div_lt_self (Nat.pos_of_ne_zero h0) (by norm_num : 1 < 10)
      have hd : digitVal (decDigitChar (n % 10)) = n % 10 :=
        digitVal_decDigitChar _ (Nat.mod_lt _ (by norm_num))
      rw [natDigitChars, if_neg h0, foldDigits_append, ih (n / 10) (by omega),
        foldDigits_single, hd, List.length_append, List.length_singleton, pow_succ,
        ← mul_assoc]
      set b := a * 10 ^ (natDigitChars fuel (n / 10)).length with hb
      omega

theorem natDigitChars_ne_nil : ∀ fuel n, n ≤ fuel → n ≠ 0 → natDigitChars fuel n ≠ [] := by
  intro fuel n hn h0
  cases fuel with
  | zero => omega
  | succ fuel => simp [natDigitChars, if_neg h0]

theorem natDigitChars_length_le : ∀ fuel n, n ≤ fuel → ∀ k, n < 10 ^ k →
    (natDigitChars fuel n).length ≤ k := by
  intro fuel
  induction fuel with
  | zero =>
    intro n hn k hk
    interval_cases n
    simp [natDigitChars]
  | succ fuel ih =>
    intro n hn k hk
    by_cases h0 : n = 0
    · subst h0; simp [natDigitChars]
    · have hlt := Nat.div_lt_self (Nat.pos_of_ne_zero h0) (by norm_num : 1 < 10)
      rw [natDigitChars, if_neg h0]
      cases k with
      | zero => simp at hk; omega
      | succ k =>
        have hdiv : n / 10 < 10 ^ k := by
          rw [Nat.div_lt_iff_lt_mul (by norm_num : 0 < 10)]
          calc n < 10 ^ (k + 1) := hk
          _ = 10 ^ k * 10 := by ring
        have := ih (n / 10) (by omega) k hdiv
        simp only [List.length_append, List.length_singleton]
        omega

theorem natDigitChars_head : ∀ fuel n, n ≤ fuel → n ≠ 0 → ∀ c t,
    natDigitChars fuel n = c :: t → digitVal c ≠ 0 := by
  intro fuel
  induction fuel with
  | zero => intro n hn h0; omega
  | succ fuel ih =>
    intro n hn h0 c t hct
    have hlt := Nat.div_lt_self (Nat.pos_of_ne_zero h0) (by norm_num : 1 < 10)
    rw [natDigitChars, if_neg h0] at hct
    by_cases hd : n / 10 = 0
    · rw [hd, natDigitChars_zero, List.nil_append] at hct
      have hc : c = decDigitChar (n % 10) := by
        have := congrArg List.head? hct
        simp at this
        exact this.symm
      subst hc
      rw [digitVal_decDigitChar _ (Nat.mod_lt _ (by norm_num))]
      omega
    · obtain ⟨c', t', he⟩ : ∃ c' t', natDigitChars fuel (n / 10) = c' :: t' := by
        rcases hne : natDigitChars fuel (n / 10) with _ | ⟨c', t'⟩
        · exact absurd hne (natDigitChars_ne_nil fuel (n / 10) (by omega) hd)
        · exact ⟨c', t', rfl⟩
      rw [he, List.cons_append] at hct
      have hc : c = c' := by
        have := congrArg List.head? hct
        simp at this
        exact this.symm
      subst hc
      exact ih (n / 10) (by omega) hd c t' he

theorem natChars_digits (n : Nat) : ∀ c ∈ natChars n, isDigitChar c = true := by
  intro c hc
  rw [natChars] at hc
  by_cases h0 : n = 0
  · rw [if_pos h0] at hc
    simp only [List.mem_singleton] at hc
    subst hc
    decide
  · rw [if_neg h0] at hc
    exact natDigitChars_digits n n le_rfl c hc

theorem natChars_fold (n : Nat) : foldDigits 0 (natChars n) = n := by
  by_cases h0 : n = 0
  · subst h0; decide
  · rw [natChars, if_neg h0, natDigitChars_fold n n le_rfl 0]
    simp

theorem natChars_ne_nil (n : Nat) : natChars n ≠ [] := by
  rw [natChars]
  by_cases h0 : n = 0
  · rw [if_pos h0]; simp
  · rw [if_neg h0]; exact natDigitChars_ne_nil n n le_rfl h0

theorem natChars_length_le (n k : Nat) (hk : 1 ≤ k) (h : n < 10 ^ k) :
    (natChars n).length ≤ k := by
  rw [natChars]
  by_cases h0 : n = 0
  · rw [if_pos h0]; simpa using hk
  · rw [if_neg h0]; exact natDigitChars_length_le n n le_rfl k h

theorem natChars_no_leading_zero (n : Nat) :
    ¬((natChars n).head? = some '0' ∧ (natChars n).length ≠ 1) := by
  rintro ⟨hh, hl⟩
  by_cases h0 : n = 0
  · apply hl
    rw [natChars, if_pos h0]
    rfl
  · rw [natChars, if_neg h0] at hh
    rcases he : natDigitChars n n with _ | ⟨c, t⟩
    · exact natDigitChars_ne_nil n n le_rfl h0 he
    · rw [he] at hh
      have hc : c = '0' := by simpa using hh
      subst hc
      exact natDigitChars_head n n le_rfl h0 _ _ he (by decide)

/-! ## Left-padding with zeros -/

theorem padZero_digits (k : Nat) (ds : List Char) (h : ∀ c ∈ ds, isDigitChar c = true) :
    ∀ c ∈ padZero k ds, isDigitChar c = true := by
  intro c hc
  rw [padZero] at hc
  rcases List.mem_append.1 hc with hm | hm
  · have := List.eq_of_mem_replicate hm
    subst this
    decide
  · exact h c hm

theorem foldDigits_zeros (j : Nat) (ds : List Char) :
    foldDigits 0 (List.replicate j '0' ++ ds) = foldDigits 0 ds := by
  induction j with
  | zero => rfl
  | succ j ih =>
    rw [List.replicate_succ, List.cons_append]
    exact ih

theorem padZero_fold (k : Nat) (ds : List Char) :
    foldDigits 0 (padZero k ds) = foldDigits 0 ds := foldDigits_zeros _ _

theorem padZero_length (k : Nat) (ds : List Char) (h : ds.length ≤ k) :
    (padZero k ds).length = k := by
  rw [padZero]
  simp only [List.length_append, List.length_replicate]
  omega

/-! ## Scanning a digit block -/

theorem spanDigits_append (ds rest : List Char) (hd : ∀ c ∈ ds, isDigitChar c = true)
    (hr : ∀ c, rest.head? = some c → isDigitChar c = false) :
    spanDigits (ds ++ rest) = (ds, rest) := by
  induction ds with
  | nil =>
    rw [List.nil_append, spanDigits]
    cases rest with
    | nil => rfl
    | cons c t =>
      rw [List.takeWhile_cons, List.dropWhile_cons, hr c rfl]
      simp
  | cons c t ih =>
    have hc := hd c (List.mem_cons_self c t)
    have ht := ih fun x hx => hd x (List.mem_cons_of_mem _ hx)
    have h1 : (t ++ rest).takeWhile isDigitChar = t := congrArg Prod.fst ht
    have h2 : (t ++ rest).dropWhile isDigitChar = rest := congrArg Prod.snd ht
    rw [List.cons_append, spanDigits, List.takeWhile_cons, List.dropWhile_cons, hc]
    simp only [if_true]
    rw [h1, h2]

theorem spanDigits_stop (rest : List Char)
    (hr : ∀ c, rest.head? = some c → isDigitChar c = false) :
    spanDigits rest = ([], rest) := by
  have := spanDigits_append [] rest (by simp) hr
  simpa using this

/-! ## The printed decimal text denotes the original rational -/

theorem tenSmooth_pos (n : Nat) (h : tenSmooth n = true) : 0 < n := by
  have he : n = 2 ^ pVal 2 n * 5 ^ pVal 5 n := by simpa [tenSmooth] using h
  rw [he]
  positivity

theorem tenSmooth_dvd (n : Nat) (h : tenSmooth n = true) :
    n ∣ 10 ^ max (pVal 2 n) (pVal 5 n) := by
  have he : n = 2 ^ pVal 2 n * 5 ^ pVal 5 n := by simpa [tenSmooth] using h
  have h10 : (10 : ℕ) ^ max (pVal 2 n) (pVal 5 n)
      = 2 ^ max (pVal 2 n) (pVal 5 n) * 5 ^ max (pVal 2 n) (pVal 5 n) := by
    rw [← Nat.mul_pow]
  rw [h10]
  nth_rewrite 1 [he]
  exact Nat.mul_dvd_mul (pow_dvd_pow 2 (le_max_left _ _)) (pow_dvd_pow 5 (le_max_right _ _))

/-- The integer `q * 10^k` when the denominator is ten-smooth, as computed
by `numChars`. -/
def numM (q : ℚ) : ℤ := q.num * (10 : ℤ) ^ decExp q / (q.den : ℤ)

/-- Sign of the printed form. -/
def numNeg (q : ℚ) : Bool := decide (numM q < 0)

/-- Integer-part digits of the printed form. -/
def numInt (q : ℚ) : List Char := natChars ((numM q).natAbs / 10 ^ decExp q)

/-- Fraction-part digits of the printed form (padded to width `decExp q`). -/
def numFrac (q : ℚ) : List Char := padZero (decExp q) (natChars ((numM q).natAbs % 10 ^ decExp q))

theorem numChars_shape (q : ℚ) : numChars q =
    (if numNeg q then ['-'] else []) ++ numInt q ++
      (if decExp q = 0 then [] else '.' :: numFrac q) := by
  rw [numChars, numNeg, numM, numInt, numFrac, numM]
  by_cases hk : decExp q = 0 <;> by_cases hm : q.num * (10 : ℤ) ^ decExp q / (q.den : ℤ) < 0 <;>
    simp [hk, hm] <;> try (split <;> simp)

theorem den_dvd_num_ten (q : ℚ) (h : tenSmooth q.den = true) :
    (q.den : ℤ) ∣ q.num * (10 : ℤ) ^ decExp q := by
  have h1 : q.den ∣ 10 ^ decExp q := tenSmooth_dvd q.den h
  have h2 : (q.den : ℤ) ∣ ((10 ^ decExp q : ℕ) : ℤ) := Int.natCast_dvd_natCast.2 h1
  have h3 : ((10 ^ decExp q : ℕ) : ℤ) = (10 : ℤ) ^ decExp q := by push_cast; ring
  rw [h3] at h2
  exact h2.mul_left q.num

theorem numM_cast (q : ℚ) (h : tenSmooth q.den = true) :
    ((numM q : ℤ) : ℚ) = q * (10 : ℚ) ^ decExp q := by
  obtain ⟨c, hc⟩ := den_dvd_num_ten q h
  have hden : (q.den : ℤ) ≠ 0 := by exact_mod_cast q.den_nz
  have hdenQ : ((q.den : ℕ) : ℚ) ≠ 0 := by exact_mod_cast q.den_nz
  rw [numM, hc, Int.mul_ediv_cancel_left c hden]
  have h2 : (q.num : ℚ) * (10 : ℚ) ^ decExp q = (q.den : ℚ) * (c : ℚ) := by
    exact_mod_cast congrArg (fun z : ℤ => (z : ℚ)) hc
  have hnum : (q.num : ℚ) = q * (q.den : ℚ) := (div_eq_iff hdenQ).1 (Rat.num_div_den q)
  apply mul_left_cancel₀ hdenQ
  rw [← h2, hnum]
  ring

theorem natAbs_cast_sign (m : ℤ) :
    (if m < 0 then -((m.natAbs : ℚ)) else (m.natAbs : ℚ)) = (m : ℚ) := by
  by_cases hm : m < 0
  · rw [if_pos hm, Int.cast_natAbs, abs_of_neg hm]
    push_cast
    ring
  · rw [if_neg hm, Int.cast_natAbs, abs_of_nonneg (not_lt.1 hm)]

theorem decValue_noexp (neg : Bool) (ids fds : List Char) :
    decValue neg ids fds false [] =
      (if neg then -(1 : ℚ) else 1) *
        ((foldDigits 0 ids : ℕ) +
          if fds.isEmpty then 0 else (foldDigits 0 fds : ℕ) / (10 : ℚ) ^ fds.length) := by
  rw [decValue]
  rcases neg <;> rcases hfe : fds.isEmpty <;> simp [hfe]

theorem decValue_print (q : ℚ) (h : tenSmooth q.den = true) :
    decValue (numNeg q) (numInt q)
      (if decExp q = 0 then [] else numFrac q) false [] = q := by
  have hmq : ((numM q : ℤ) : ℚ) = q * (10 : ℚ) ^ decExp q := numM_cast q h
  rw [decValue_noexp]
  have hsign := natAbs_cast_sign (numM q)
  by_cases hk : decExp q = 0
  · rw [if_pos hk]
    have hfold : foldDigits 0 (numInt q) = (numM q).natAbs := by
      rw [numInt, hk, pow_zero, Nat.div_one, natChars_fold]
    rw [hfold]
    simp only [List.isEmpty_nil, if_true, add_zero]
    rw [hk, pow_zero, mul_one] at hmq
    by_cases hneg : numM q < 0
    · have hnegb : numNeg q = true := by simp [numNeg, hneg]
      rw [if_pos hneg] at hsign
      rw [hnegb, if_pos rfl, neg_one_mul, hsign, hmq]
    · have hnegb : numNeg q = false := by simp [numNeg, hneg]
      rw [if_neg hneg] at hsign
      rw [hnegb]
      simp only [Bool.false_eq_true, if_false, one_mul]
      rw [hsign, hmq]
  · rw [if_neg hk]
    have hk1 : 1 ≤ decExp q := Nat.one_le_iff_ne_zero.2 hk
    have hflt : (numM q).natAbs % 10 ^ decExp q < 10 ^ decExp q :=
      Nat.mod_lt _ (by positivity)
    have hlen : (numFrac q).length = decExp q := by
      rw [numFrac]
      exact padZero_length _ _ (natChars_length_le _ _ hk1 hflt)
    have hne : (numFrac q).isEmpty = false := by
      rcases hnn : numFrac q with _ | ⟨c, t⟩
      · rw [hnn] at hlen
        simp at hlen
        omega
      · rfl
    have hfoldI : foldDigits 0 (numInt q) = (numM q).natAbs / 10 ^ decExp q := by
      rw [numInt, natChars_fold]
    have hfoldF : foldDigits 0 (numFrac q) = (numM q).natAbs % 10 ^ decExp q := by
      rw [numFrac, padZero_fold, natChars_fold]
    rw [hfoldI, hfoldF, hlen, hne]
    simp only [Bool.false_eq_true, if_false]
    have hdm := Nat.div_add_mod ((numM q).natAbs) (10 ^ decExp q)
    have hdmQ : (10 : ℚ) ^ decExp q * (((numM q).natAbs / 10 ^ decExp q : ℕ) : ℚ) +
        (((numM q).natAbs % 10 ^ decExp q : ℕ) : ℚ) = ((numM q).natAbs : ℚ) := by
      exact_mod_cast hdm
    have hps : ((10 : ℚ)) ^ decExp q ≠ 0 := by positivity
    have hif : (((numM q).natAbs / 10 ^ decExp q : ℕ) : ℚ) +
        (((numM q).natAbs % 10 ^ decExp q : ℕ) : ℚ) / (10 : ℚ) ^ decExp q =
        ((numM q).natAbs : ℚ) / (10 : ℚ) ^ decExp q := by
      field_simp
      linarith [hdmQ]
    rw [hif]
    have hq : ((numM q : ℤ) : ℚ) / (10 : ℚ) ^ decExp q = q := by
      rw [hmq]
      field_simp
    by_cases hneg : numM q < 0
    · have hnegb : numNeg q = true := by simp [numNeg, hneg]
      rw [if_pos hneg] at hsign
      rw [hnegb, if_pos rfl, neg_one_mul, ← neg_div, hsign]
      exact hq
    · have hnegb : numNeg q = false := by simp [numNeg, hneg]
      rw [if_neg hneg] at hsign
      rw [hnegb]
      simp only [Bool.false_eq_true, if_false, one_mul]
      rw [hsign]
      exact hq

/-! ## Scanning the printed number -/

theorem numInt_digits (q : ℚ) : ∀ c ∈ numInt q, isDigitChar c = true := by
  rw [numInt]
  exact natChars_digits _

theorem numInt_ne_nil (q : ℚ) : numInt q ≠ [] := by
  rw [numInt]
  exact natChars_ne_nil _

theorem numInt_no_leading_zero (q : ℚ) :
    ¬((numInt q).head? = some '0' ∧ (numInt q).length ≠ 1) := by
  rw [numInt]
  exact natChars_no_leading_zero _

theorem numFrac_digits (q : ℚ) : ∀ c ∈ numFrac q, isDigitChar c = true := by
  rw [numFrac]
  exact padZero_digits _ _ (natChars_digits _)

theorem numFrac_length (q : ℚ) (hk : decExp q ≠ 0) : (numFrac q).length = decExp q := by
  have hk1 : 1 ≤ decExp q := Nat.one_le_iff_ne_zero.2 hk
  have hflt : (numM q).natAbs % 10 ^ decExp q < 10 ^ decExp q :=
    Nat.mod_lt _ (by positivity)
  rw [numFrac]
  exact padZero_length _ _ (natChars_length_le _ _ hk1 hflt)

theorem numFrac_ne_nil (q : ℚ) (hk : decExp q ≠ 0) : numFrac q ≠ [] := by
  intro he
  have := numFrac_length q hk
  rw [he] at this
  simp at this
  omega

/-- The first character after a printed number must not extend the number:
not a digit, not a dot, not an exponent marker. -/
def numStopB (cs : List Char) : Bool :=
  match cs.head? with
  | none => true
  | some c => !isDigitChar c && c != '.' && c != 'e' && c != 'E'

theorem numStopB_head (rest : List Char) (h : numStopB rest = true) :
    ∀ c, rest.head? = some c →
      isDigitChar c = false ∧ c ≠ '.' ∧ c ≠ 'e' ∧ c ≠ 'E' := by
  intro c hc
  rw [numStopB, hc] at h
  simp only [Bool.and_eq_true, Bool.not_eq_true', bne_iff_ne] at h
  exact ⟨h.1.1.1, h.1.1.2, h.1.2, h.2⟩

theorem cons_head_not_digit (c : Char) (t : List Char) (hc : isDigitChar c = false) :
    ∀ x, (c :: t).head? = some x → isDigitChar x = false := by
  intro x hx
  simp at hx
  subst hx
  exact hc

theorem digit_head_beq_false (l X : List Char) (hne : l ≠ [])
    (hd : ∀ c ∈ l, isDigitChar c = true) (d : Char)
    (hdn : d.toNat < 48 ∨ 57 < d.toNat) : ((l ++ X).head? == some d) = false := by
  cases l with
  | nil => exact absurd rfl hne
  | cons c t =>
    have hc := hd c (List.mem_cons_self c t)
    have hne2 := ne_of_digit c d hc hdn
    simp [hne2]

theorem parseNum_print (q : ℚ) (h : tenSmooth q.den = true) (rest : List Char)
    (hrest : numStopB rest = true) :
    parseNum (numChars q ++ rest) = some (q, rest) := by
  have hrg : ∀ c, rest.head? = some c → isDigitChar c = false :=
    fun c hc => (numStopB_head rest hrest c hc).1
  have hdot : ¬rest.head? = some '.' := by
    intro hc
    exact ((numStopB_head rest hrest '.' hc).2.1) rfl
  have hexp : ¬(rest.head? = some 'e' ∨ rest.head? = some 'E') := by
    rintro (hc | hc)
    · exact ((numStopB_head rest hrest 'e' hc).2.2.1) rfl
    · exact ((numStopB_head rest hrest 'E' hc).2.2.2) rfl
  have hdval := decValue_print q h
  have hpe : ∀ (neg : Bool) (fds : List Char), parseNumExp neg (numInt q) fds rest =
      some (decValue neg (numInt q) fds false [], rest) := by
    intro neg fds
    rw [parseNumExp, if_neg hexp]
  rw [numChars_shape]
  by_cases hk : decExp q = 0
  · rw [if_pos hk] at hdval ⊢
    have hspan : spanDigits (numInt q ++ rest) = (numInt q, rest) :=
      spanDigits_append _ _ (numInt_digits q) hrg
    have hie : (numInt q).isEmpty = false := by
      rcases hni : numInt q with _ | ⟨c, t⟩
      · exact absurd hni (numInt_ne_nil q)
      · rfl
    cases hneg : numNeg q
    · simp only [Bool.false_eq_true, if_false, List.nil_append, List.append_nil]
      have hsgn := digit_head_beq_false (numInt q) rest (numInt_ne_nil q)
        (numInt_digits q) '-' (by decide)
      simp only [parseNum, hsgn, Bool.false_eq_true, if_false, hspan, hie,
        if_neg (numInt_no_leading_zero q), if_neg hdot, hpe]
      rw [hneg] at hdval
      simp [hdval]
    · simp only [if_true, List.append_nil, List.cons_append, List.nil_append]
      simp only [parseNum, List.head?_cons, beq_self_eq_true, if_true, List.drop_succ_cons,
        List.drop_zero, hspan, hie, if_neg (numInt_no_leading_zero q), if_neg hdot, hpe]
      rw [hneg] at hdval
      simp [hdval]
  · rw [if_neg hk] at hdval ⊢
    have hfr : ∀ c, ('.' :: (numFrac q ++ rest)).head? = some c → isDigitChar c = false :=
      cons_head_not_digit '.' _ (by decide)
    have hspan : spanDigits (numInt q ++ '.' :: (numFrac q ++ rest)) =
        (numInt q, '.' :: (numFrac q ++ rest)) :=
      spanDigits_append _ _ (numInt_digits q) hfr
    have hspanF : spanDigits (numFrac q ++ rest) = (numFrac q, rest) :=
      spanDigits_append _ _ (numFrac_digits q) hrg
    have hie : (numInt q).isEmpty = false := by
      rcases hni : numInt q with _ | ⟨c, t⟩
      · exact absurd hni (numInt_ne_nil q)
      · rfl
    have hfe : (numFrac q).isEmpty = false := by
      rcases hni : numFrac q with _ | ⟨c, t⟩
      · exact absurd hni (numFrac_ne_nil q hk)
      · rfl
    cases hneg : numNeg q
    · simp only [Bool.false_eq_true, if_false, List.nil_append, List.append_assoc,
        List.cons_append, List.nil_append]
      have hsgn := digit_head_beq_false (numInt q) ('.' :: (numFrac q ++ rest))
        (numInt_ne_nil q) (numInt_digits q) '-' (by decide)
      simp only [parseNum, hsgn, Bool.false_eq_true, if_false, hspan, hie,
        if_neg (numInt_no_leading_zero q), List.head?_cons, if_pos rfl,
        List.drop_succ_cons, List.drop_zero, hspanF, hfe, hpe]
      rw [hneg] at hdval
      simp [hdval]
    · simp only [if_true, List.cons_append, List.append_assoc, List.nil_append]
      simp only [parseNum, List.head?_cons, beq_self_eq_true, if_true, List.drop_succ_cons,
        List.drop_zero, hspan, hie, if_neg (numInt_no_leading_zero q), if_pos rfl,
        hspanF, hfe, hpe]
      rw [hneg] at hdval
      simp [hdval]

theorem dropWhile_id_of_head (p : Char → Bool) (l : List Char)
    (h : ∀ c, l.head? = some c → p c = false) : l.dropWhile p = l := by
  cases l with
  | nil => rfl
  | cons c t => rw [List.dropWhile_cons_of_neg (by simp [h c rfl])]

theorem numChars_ne_nil (q : ℚ) : numChars q ≠ [] := by
  rw [numChars_shape]
  intro he
  rcases List.append_eq_nil.1 he with ⟨h1, h2⟩
  rcases List.append_eq_nil.1 h1 with ⟨h3, h4⟩
  exact numInt_ne_nil q h4

theorem head_digit_of_all (l : List Char) (hne : l ≠ [])
    (hd : ∀ c ∈ l, isDigitChar c = true) :
    ∀ c, l.head? = some c → isDigitChar c = true := by
  intro c hc
  cases l with
  | nil => exact absurd rfl hne
  | cons x t =>
    simp at hc
    subst hc
    exact hd _ (List.mem_cons_self _ _)

theorem numChars_head (q : ℚ) :
    ∀ c, (numChars q).head? = some c → c = '-' ∨ isDigitChar c = true := by
  intro c hc
  rw [numChars_shape] at hc
  cases hneg : numNeg q
  · rw [hneg] at hc
    simp only [Bool.false_eq_true, if_false, List.nil_append] at hc
    rcases hni : numInt q with _ | ⟨x, t⟩
    · exact absurd hni (numInt_ne_nil q)
    · rw [hni, List.cons_append, List.head?_cons] at hc
      right
      have hx : x = c := by simpa using hc
      subst hx
      exact numInt_digits q x (by rw [hni]; exact List.mem_cons_self _ _)
  · rw [hneg] at hc
    simp only [if_true, List.cons_append, List.nil_append, List.head?_cons] at hc
    left
    exact (by simpa using hc.symm)

theorem numChars_no_ws (q : ℚ) :
    ∀ c, (numChars q).head? = some c → jsWs c = false := by
  intro c hc
  rcases numChars_head q c hc with hm | hd
  · subst hm
    decide
  · exact jsWs_of_digit c hd

theorem spanDigits_all (l : List Char) (hd : ∀ c ∈ l, isDigitChar c = true) :
    spanDigits l = (l, []) := by
  have := spanDigits_append l [] hd (by intro c hc; simp at hc)
  simpa using this

theorem parseFloatQ_print (q : ℚ) (h : tenSmooth q.den = true) :
    parseFloatQ (numToString q) = some q := by
  have hdval := decValue_print q h
  have hdata : (numToString q).data = numChars q := rfl
  have hdrop : (numChars q).dropWhile jsWs = numChars q :=
    dropWhile_id_of_head _ _ (numChars_no_ws q)
  have hie : (numInt q).isEmpty = false := by
    rcases hni : numInt q with _ | ⟨c, t⟩
    · exact absurd hni (numInt_ne_nil q)
    · rfl
  cases hneg : numNeg q
  · have hhead : ∀ c, (numChars q).head? = some c → isDigitChar c = true := by
      intro c hc
      rcases numChars_head q c hc with hm | hd2
      · subst hm
        rw [numChars_shape, hneg] at hc
        simp only [Bool.false_eq_true, if_false, List.nil_append] at hc
        rcases hni : numInt q with _ | ⟨x, t⟩
        · exact absurd hni (numInt_ne_nil q)
        · rw [hni, List.cons_append, List.head?_cons] at hc
          have hx : x = '-' := by simpa using hc
          have := numInt_digits q x (by rw [hni]; exact List.mem_cons_self _ _)
          rw [hx] at this
          exact absurd this (by decide)
      · exact hd2
    have hrs : readSign (numChars q) = (false, numChars q) := by
      rw [readSign, if_neg, if_neg]
      · intro hc
        exact absurd (hhead '+' hc) (by decide)
      · intro hc
        exact absurd (hhead '-' hc) (by decide)
    by_cases hk : decExp q = 0
    · have hnc : numChars q = numInt q := by
        rw [numChars_shape, hneg, if_pos hk]
        simp
      have hsp : spanDigits (numChars q) = (numInt q, []) := by
        rw [hnc]
        exact spanDigits_all _ (numInt_digits q)
      have hrf : readFrac ([] : List Char) = ([], []) := rfl
      have hre : readExpFloat ([] : List Char) = (false, []) := rfl
      simp only [parseFloatQ, hdata, hdrop, hrs, hsp, hrf, hre, hie, Bool.false_and,
        Bool.false_eq_true, if_false]
      rw [hneg, if_pos hk] at hdval
      simp [hdval]
    · have hnc : numChars q = numInt q ++ '.' :: numFrac q := by
        rw [numChars_shape, hneg, if_neg hk]
        simp
      have hsp : spanDigits (numChars q) = (numInt q, '.' :: numFrac q) := by
        rw [hnc]
        exact spanDigits_append _ _ (numInt_digits q) (cons_head_not_digit '.' _ (by decide))
      have hrf : readFrac ('.' :: numFrac q) = (numFrac q, []) := by
        rw [readFrac, if_pos (by simp), List.drop_succ_cons, List.drop_zero]
        exact spanDigits_all _ (numFrac_digits q)
      have hre : readExpFloat ([] : List Char) = (false, []) := rfl
      simp only [parseFloatQ, hdata, hdrop, hrs, hsp, hrf, hre, hie, Bool.false_and,
        Bool.false_eq_true, if_false]
      rw [hneg, if_neg hk] at hdval
      simp [hdval]
  · have hbody : numChars q = '-' :: (numInt q ++ (if decExp q = 0 then []
        else '.' :: numFrac q)) := by
      rw [numChars_shape, hneg]
      simp
    have hrs : readSign (numChars q) = (true, numInt q ++ (if decExp q = 0 then []
        else '.' :: numFrac q)) := by
      rw [hbody, readSign, if_pos (by simp), List.drop_succ_cons, List.drop_zero]
    by_cases hk : decExp q = 0
    · have hsp : spanDigits (numInt q ++ (if decExp q = 0 then []
          else '.' :: numFrac q)) = (numInt q, []) := by
        rw [if_pos hk]
        simp only [List.append_nil]
        exact spanDigits_all _ (numInt_digits q)
      have hrf : readFrac ([] : List Char) = ([], []) := rfl
      have hre : readExpFloat ([] : List Char) = (false, []) := rfl
      simp only [parseFloatQ, hdata, hdrop, hrs, hsp, hrf, hre, hie, Bool.false_and,
        Bool.false_eq_true, if_false]
      rw [hneg, if_pos hk] at hdval
      simp [hdval]
    · have hsp : spanDigits (numInt q ++ (if decExp q = 0 then []
          else '.' :: numFrac q)) = (numInt q, '.' :: numFrac q) := by
        rw [if_neg hk]
        exact spanDigits_append _ _ (numInt_digits q) (cons_head_not_digit '.' _ (by decide))
      have hrf : readFrac ('.' :: numFrac q) = (numFrac q, []) := by
        rw [readFrac, if_pos (by simp), List.drop_succ_cons, List.drop_zero]
        exact spanDigits_all _ (numFrac_digits q)
      have hre : readExpFloat ([] : List Char) = (false, []) := rfl
      simp only [parseFloatQ, hdata, hdrop, hrs, hsp, hrf, hre, hie, Bool.false_and,
        Bool.false_eq_true, if_false]
      rw [hneg, if_neg hk] at hdval
      simp [hdval]

theorem mem_of_getLast?_eq (l : List Char) (c : Char) (hc : l.getLast? = some c) : c ∈ l := by
  obtain ⟨hne, he⟩ := List.mem_getLast?_eq_getLast (show c ∈ l.getLast? from hc)
  rw [he]
  exact List.getLast_mem hne

theorem head?_append_left (l X : List Char) (hne : l ≠ []) : (l ++ X).head? = l.head? := by
  cases l with
  | nil => exact absurd rfl hne
  | cons c t => rfl

theorem numChars_last_digit (q : ℚ) :
    ∀ c, (numChars q).getLast? = some c → isDigitChar c = true := by
  intro c hc
  rw [numChars_shape] at hc
  by_cases hk : decExp q = 0
  · rw [if_pos hk, List.append_nil,
      List.getLast?_append_of_ne_nil _ (numInt_ne_nil q)] at hc
    exact numInt_digits q c (mem_of_getLast?_eq _ _ hc)
  · rw [if_neg hk, List.getLast?_append_of_ne_nil _ (by simp),
      show ('.' :: numFrac q) = ['.'] ++ numFrac q from rfl,
      List.getLast?_append_of_ne_nil _ (numFrac_ne_nil q hk)] at hc
    exact numFrac_digits q c (mem_of_getLast?_eq _ _ hc)

theorem decFull_numChars (q : ℚ) (h : tenSmooth q.den = true) :
    decFull (numChars q) = some q := by
  have hdval := decValue_print q h
  have hie : (numInt q).isEmpty = false := by
    rcases hni : numInt q with _ | ⟨c, t⟩
    · exact absurd hni (numInt_ne_nil q)
    · rfl
  cases hneg : numNeg q
  · have hhead : ∀ c, (numChars q).head? = some c → isDigitChar c = true := by
      intro c hc
      rcases numChars_head q c hc with hm | hd2
      · subst hm
        rw [numChars_shape, hneg] at hc
        simp only [Bool.false_eq_true, if_false, List.nil_append] at hc
        rw [head?_append_left _ _ (numInt_ne_nil q)] at hc
        have := head_digit_of_all _ (numInt_ne_nil q) (numInt_digits q) '-' hc
        exact absurd this (by decide)
      · exact hd2
    have hrs : readSign (numChars q) = (false, numChars q) := by
      rw [readSign, if_neg, if_neg]
      · intro hc
        exact absurd (hhead '+' hc) (by decide)
      · intro hc
        exact absurd (hhead '-' hc) (by decide)
    by_cases hk : decExp q = 0
    · have hnc : numChars q = numInt q := by
        rw [numChars_shape, hneg, if_pos hk]
        simp
      have hsp : spanDigits (numChars q) = (numInt q, []) := by
        rw [hnc]
        exact spanDigits_all _ (numInt_digits q)
      have hrf : readFrac ([] : List Char) = ([], []) := rfl
      simp only [decFull, hrs, hsp, hrf, hie, Bool.false_and, Bool.false_eq_true, if_false,
        List.isEmpty_nil, if_true]
      rw [hneg, if_pos hk] at hdval
      simp [hdval]
    · have hnc : numChars q = numInt q ++ '.' :: numFrac q := by
        rw [numChars_shape, hneg, if_neg hk]
        simp
      have hsp : spanDigits (numChars q) = (numInt q, '.' :: numFrac q) := by
        rw [hnc]
        exact spanDigits_append _ _ (numInt_digits q) (cons_head_not_digit '.' _ (by decide))
      have hrf : readFrac ('.' :: numFrac q) = (numFrac q, []) := by
        rw [readFrac, if_pos (by simp), List.drop_succ_cons, List.drop_zero]
        exact spanDigits_all _ (numFrac_digits q)
      simp only [decFull, hrs, hsp, hrf, hie, Bool.false_and, Bool.false_eq_true, if_false,
        List.isEmpty_nil, if_true]
      rw [hneg, if_neg hk] at hdval
      simp [hdval]
  · have hbody : numChars q = '-' :: (numInt q ++ (if decExp q = 0 then []
        else '.' :: numFrac q)) := by
      rw [numChars_shape, hneg]
      simp
    have hrs : readSign (numChars q) = (true, numInt q ++ (if decExp q = 0 then []
        else '.' :: numFrac q)) := by
      rw [hbody, readSign, if_pos (by simp), List.drop_succ_cons, List.drop_zero]
    by_cases hk : decExp q = 0
    · have hsp : spanDigits (numInt q ++ (if decExp q = 0 then []
          else '.' :: numFrac q)) = (numInt q, []) := by
        rw [if_pos hk]
        simp only [List.append_nil]
        exact spanDigits_all _ (numInt_digits q)
      have hrf : readFrac ([] : List Char) = ([], []) := rfl
      simp only [decFull, hrs, hsp, hrf, hie, Bool.false_and, Bool.false_eq_true, if_false,
        List.isEmpty_nil, if_true]
      rw [hneg, if_pos hk] at hdval
      simp [hdval]
    · have hsp : spanDigits (numInt q ++ (if decExp q = 0 then []
          else '.' :: numFrac q)) = (numInt q, '.' :: numFrac q) := by
        rw [if_neg hk]
        exact spanDigits_append _ _ (numInt_digits q) (cons_head_not_digit '.' _ (by decide))
      have hrf : readFrac ('.' :: numFrac q) = (numFrac q, []) := by
        rw [readFrac, if_pos (by simp), List.drop_succ_cons, List.drop_zero]
        exact spanDigits_all _ (numFrac_digits q)
      simp only [decFull, hrs, hsp, hrf, hie, Bool.false_and, Bool.false_eq_true, if_false,
        List.isEmpty_nil, if_true]
      rw [hneg, if_neg hk] at hdval
      simp [hdval]

theorem jsToNumber_print (q : ℚ) (h : tenSmooth q.den = true) :
    jsToNumber (numToString q) = some q := by
  have hdata : (numToString q).data = numChars q := rfl
  have hlead : (numChars q).dropWhile jsWs = numChars q :=
    dropWhile_id_of_head _ _ (numChars_no_ws q)
  have htrail : ((numChars q).reverse.dropWhile jsWs).reverse = numChars q := by
    have hh : ∀ c, (numChars q).reverse.head? = some c → jsWs c = false := by
      intro c hc
      rw [List.head?_reverse] at hc
      exact jsWs_of_digit c (numChars_last_digit q c hc)
    rw [dropWhile_id_of_head jsWs _ hh, List.reverse_reverse]
  have hne : (numChars q).isEmpty = false := by
    rcases hni : numChars q with _ | ⟨c, t⟩
    · exact absurd hni (numChars_ne_nil q)
    · rfl
  have hrt : radixTag (numChars q) = none := by
    simp only [radixTag]
    cases hneg : numNeg q
    · by_cases hh : (numChars q).head? = some '0'
      · rw [if_pos hh]
        have hsh : numChars q = numInt q ++ (if decExp q = 0 then []
            else '.' :: numFrac q) := by
          rw [numChars_shape, hneg]
          simp
        have hh2 : (numInt q).head? = some '0' := by
          rw [hsh, head?_append_left _ _ (numInt_ne_nil q)] at hh
          exact hh
        have hlen1 : (numInt q).length = 1 := by
          by_contra hl
          exact numInt_no_leading_zero q ⟨hh2, hl⟩
        obtain ⟨a, ha⟩ := List.length_eq_one.1 hlen1
        have ha0 : a = '0' := by
          rw [ha] at hh2
          simpa using hh2
        have hd1 : (numChars q).drop 1 = (if decExp q = 0 then []
            else '.' :: numFrac q) := by
          rw [hsh, ha, ha0]
          rfl
        rw [hd1]
        by_cases hk : decExp q = 0
        · rw [if_pos hk]
          simp
        · rw [if_neg hk]
          simp
      · rw [if_neg hh]
    · have hh : (numChars q).head? = some '-' := by
        rw [numChars_shape, hneg]
        simp
      rw [if_neg (by rw [hh]; simp)]
  simp only [jsToNumber, hdata, hlead, htrail, hne, Bool.false_eq_true, if_false, hrt]
  exact decFull_numChars q h

/-! ## JSON string literals round-trip through escaping -/

theorem hexVal_hexChar (d : Nat) (h : d < 16) : digitValB 16 (hexChar d) = some d := by
  interval_cases d <;> decide

theorem parseStringBody_u (a b c d : Char) (Y : List Char) :
    parseStringBody ('\\' :: 'u' :: a :: b :: c :: d :: Y) =
      match unhex4 a b c d with
      | some n =>
        if n < 55296 ∨ (57343 < n ∧ n < 1114112) then
          (parseStringBody Y).map fun p => (Char.ofNat n :: p.1, p.2)
        else none
      | none => none := rfl

theorem parseStringBody_generic (c : Char) (Y : List Char) (h1 : c ≠ '"') (h2 : c ≠ '\\')
    (h3 : ¬c.toNat < 32) :
    parseStringBody (c :: Y) = (parseStringBody Y).map fun p => (c :: p.1, p.2) := by
  rw [parseStringBody.eq_def]
  split
  · simp_all
  · simp_all
  · simp_all
  · simp_all
  · rename_i c2 Y2 heq
    injection heq with h4 h5
    subst h4
    subst h5
    rw [if_neg h3]

theorem parseStringBody_escape (cs rest : List Char) :
    parseStringBody (escapeList cs ++ '"' :: rest) = some (cs, rest) := by
  induction cs with
  | nil => rfl
  | cons c t ih =>
    rw [escapeList, List.append_assoc]
    by_cases h1 : c = '"'
    · subst h1
      show (parseStringBody (escapeList t ++ '"' :: rest)).map (fun p => ('"' :: p.1, p.2)) =
        some ('"' :: t, rest)
      rw [ih]
      rfl
    · by_cases h2 : c = '\\'
      · subst h2
        show (parseStringBody (escapeList t ++ '"' :: rest)).map
            (fun p => ('\\' :: p.1, p.2)) = some ('\\' :: t, rest)
        rw [ih]
        rfl
      · by_cases h3 : c = '\x08'
        · subst h3
          show (parseStringBody (escapeList t ++ '"' :: rest)).map
              (fun p => ('\x08' :: p.1, p.2)) = some ('\x08' :: t, rest)
          rw [ih]
          rfl
        · by_cases h4 : c = '\t'
          · subst h4
            show (parseStringBody (escapeList t ++ '"' :: rest)).map
                (fun p => ('\t' :: p.1, p.2)) = some ('\t' :: t, rest)
            rw [ih]
            rfl
          · by_cases h5 : c = '\n'
            · subst h5
              show (parseStringBody (escapeList t ++ '"' :: rest)).map
                  (fun p => ('\n' :: p.1, p.2)) = some ('\n' :: t, rest)
              rw [ih]
              rfl
            · by_cases h6 : c = '\x0c'
              · subst h6
                show (parseStringBody (escapeList t ++ '"' :: rest)).map
                    (fun p => ('\x0c' :: p.1, p.2)) = some ('\x0c' :: t, rest)
                rw [ih]
                rfl
              · by_cases h7 : c = '\r'
                · subst h7
                  show (parseStringBody (escapeList t ++ '"' :: rest)).map
                      (fun p => ('\r' :: p.1, p.2)) = some ('\r' :: t, rest)
                  rw [ih]
                  rfl
                · by_cases h8 : c.toNat < 32
                  · have hesc : escapeChar c = ['\\', 'u', '0', '0',
                        hexChar (c.toNat / 16), hexChar (c.toNat % 16)] := by
                      rw [escapeChar, if_neg h1, if_neg h2, if_neg h3, if_neg h4, if_neg h5,
                        if_neg h6, if_neg h7, if_pos h8]
                    rw [hesc]
                    simp only [List.cons_append, List.nil_append]
                    rw [parseStringBody_u]
                    have hu : unhex4 '0' '0' (hexChar (c.toNat / 16))
                        (hexChar (c.toNat % 16)) = some c.toNat := by
                      rw [unhex4, show digitValB 16 '0' = some 0 from by decide,
                        hexVal_hexChar (c.toNat / 16) (by omega),
                        hexVal_hexChar (c.toNat % 16) (by omega)]
                      show some (0 * 4096 + 0 * 256 + c.toNat / 16 * 16 + c.toNat % 16) =
                        some c.toNat
                      congr 1
                      omega
                    rw [hu]
                    show (if c.toNat < 55296 ∨ (57343 < c.toNat ∧ c.toNat < 1114112) then
                        (parseStringBody (escapeList t ++ '"' :: rest)).map
                          fun p => (Char.ofNat c.toNat :: p.1, p.2)
                      else none) = some (c :: t, rest)
                    rw [if_pos (Or.inl (by omega)), ih, Char.ofNat_toNat]
                    rfl
                  · have hesc : escapeChar c = [c] := by
                      rw [escapeChar, if_neg h1, if_neg h2, if_neg h3, if_neg h4, if_neg h5,
                        if_neg h6, if_neg h7, if_neg h8]
                    rw [hesc]
                    simp only [List.cons_append, List.nil_append]
                    rw [parseStringBody_generic c _ h1 h2 h8, ih]
                    rfl

/-! ## The parser reads back exactly what the printer wrote -/

mutual

/-- Recursion budget needed by `parseCore` on the printed form of a value. -/
def fsize : Json → Nat
  | .null => 1
  | .bool _ => 1
  | .num _ => 1
  | .str _ => 1
  | .arr es => 1 + fsizeL es
  | .obj fs => 1 + fsizeF fs

/-- Budget needed by the element production. -/
def fsizeL : List Json → Nat
  | [] => 0
  | e :: es => 1 + fsize e + fsizeL es

/-- Budget needed by the field production. -/
def fsizeF : List (String × Json) → Nat
  | [] => 0
  | (_, v) :: fs => 1 + fsize v + fsizeF fs

end

theorem fsize_pos (v : Json) : 1 ≤ fsize v := by
  cases v <;> rw [fsize] <;> omega

theorem fsizeL_pos (es : List Json) (h : es ≠ []) : 1 ≤ fsizeL es := by
  cases es with
  | nil => exact absurd rfl h
  | cons e t =>
    rw [fsizeL]
    omega

theorem fsizeF_pos (fs : List (String × Json)) (h : fs ≠ []) : 1 ≤ fsizeF fs := by
  cases fs with
  | nil => exact absurd rfl h
  | cons f t =>
    obtain ⟨k, v⟩ := f
    rw [fsizeF]
    omega

theorem printJ_head (v : Json) : ∃ c t2, printJ v = c :: t2 ∧ jsonWsChar c = false ∧
    c ≠ ']' ∧ c ≠ '\x7d' := by
  cases v with
  | null => refine ⟨'n', _, rfl, ?_, ?_, ?_⟩ <;> decide
  | bool b =>
    cases b
    · refine ⟨'f', _, rfl, ?_, ?_, ?_⟩ <;> decide
    · refine ⟨'t', _, rfl, ?_, ?_, ?_⟩ <;> decide
  | num q =>
    rcases hnc : numChars q with _ | ⟨c, t⟩
    · exact absurd hnc (numChars_ne_nil q)
    · have hcd : c = '-' ∨ isDigitChar c = true := numChars_head q c (by rw [hnc]; rfl)
      refine ⟨c, t, by rw [show printJ (.num q) = numChars q from rfl, hnc], ?_, ?_, ?_⟩
      · rcases hcd with rfl | hd
        · decide
        · exact jsonWsChar_of_digit c hd
      · rcases hcd with rfl | hd
        · decide
        · exact ne_of_digit c _ hd (by decide)
      · rcases hcd with rfl | hd
        · decide
        · exact ne_of_digit c _ hd (by decide)
  | str s => refine ⟨'"', _, rfl, ?_, ?_, ?_⟩ <;> decide
  | arr es => refine ⟨'[', _, rfl, ?_, ?_, ?_⟩ <;> decide
  | obj fs => refine ⟨'\x7b', _, rfl, ?_, ?_, ?_⟩ <;> decide

theorem printElems_head (es : List Json) (hne : es ≠ []) :
    ∃ c t2, printElems es = c :: t2 ∧ jsonWsChar c = false ∧ c ≠ ']' ∧ c ≠ '\x7d' := by
  cases es with
  | nil => exact absurd rfl hne
  | cons e es' =>
    obtain ⟨c, t2, hp, h1, h2, h3⟩ := printJ_head e
    cases es' with
    | nil => exact ⟨c, t2, by rw [show printElems [e] = printJ e from rfl, hp], h1, h2, h3⟩
    | cons f fs =>
      refine ⟨c, t2 ++ ',' :: printElems (f :: fs), ?_, h1, h2, h3⟩
      rw [show printElems (e :: f :: fs) = printJ e ++ ',' :: printElems (f :: fs) from rfl, hp]
      rfl

/-! Definitional unfoldings of `parseCore` at each input shape. -/

theorem parseCore_val_null (fuel : Nat) (rest : List Char) :
    parseCore (fuel + 1) .val ('n' :: 'u' :: 'l' :: 'l' :: rest) = some (.v .null, rest) := rfl

theorem parseCore_val_true (fuel : Nat) (rest : List Char) :
    parseCore (fuel + 1) .val ('t' :: 'r' :: 'u' :: 'e' :: rest) =
      some (.v (.bool true), rest) := rfl

theorem parseCore_val_false (fuel : Nat) (rest : List Char) :
    parseCore (fuel + 1) .val ('f' :: 'a' :: 'l' :: 's' :: 'e' :: rest) =
      some (.v (.bool false), rest) := rfl

theorem parseCore_val_str (fuel : Nat) (X : List Char) :
    parseCore (fuel + 1) .val ('"' :: X) =
      (match parseStringBody X with
      | some (body, rest2) => some (.v (.str ⟨body⟩), rest2)
      | none => none) := rfl

theorem parseCore_val_arr (fuel : Nat) (X : List Char) :
    parseCore (fuel + 1) .val ('[' :: X) =
      (match X.dropWhile jsonWsChar with
      | ']' :: rest2 => some (.v (.arr []), rest2)
      | _ =>
        match parseCore fuel .elems X with
        | some (.es es, rest2) => some (.v (.arr es), rest2)
        | _ => none) := rfl

theorem parseCore_val_obj (fuel : Nat) (X : List Char) :
    parseCore (fuel + 1) .val ('\x7b' :: X) =
      (match X.dropWhile jsonWsChar with
      | '\x7d' :: rest2 => some (.v (.obj []), rest2)
      | _ =>
        match parseCore fuel .fields X with
        | some (.fs fs, rest2) => some (.v (.obj fs), rest2)
        | _ => none) := rfl

theorem parseCore_elems_eq (fuel : Nat) (cs : List Char) :
    parseCore (fuel + 1) .elems cs =
      (match parseCore fuel .val cs with
      | some (.v v, rest) =>
        (match rest.dropWhile jsonWsChar with
        | ',' :: rest2 =>
          (match parseCore fuel .elems rest2 with
          | some (.es es, rest3) => some (.es (v :: es), rest3)
          | _ => none)
        | ']' :: rest2 => some (.es [v], rest2)
        | _ => none)
      | _ => none) := rfl

theorem parseCore_fields_cons (fuel : Nat) (X : List Char) :
    parseCore (fuel + 1) .fields ('"' :: X) =
      (match parseStringBody X with
      | some (kcs, rest2) =>
        (match rest2.dropWhile jsonWsChar with
        | ':' :: rest3 =>
          (match parseCore fuel .val rest3 with
          | some (.v v, rest4) =>
            (match rest4.dropWhile jsonWsChar with
            | ',' :: rest5 =>
              (match parseCore fuel .fields rest5 with
              | some (.fs fs, rest6) => some (.fs ((⟨kcs⟩, v) :: fs), rest6)
              | _ => none)
            | '\x7d' :: rest5 => some (.fs [(⟨kcs⟩, v)], rest5)
            | _ => none)
          | _ => none)
        | _ => none)
      | none => none) := rfl

theorem parseCore_val_other (fuel : Nat) (c : Char) (X : List Char)
    (hws : jsonWsChar c = false) (hn : c ≠ 'n') (ht : c ≠ 't') (hf : c ≠ 'f')
    (hq : c ≠ '"') (hb : c ≠ '[') (ho : c ≠ '\x7b') :
    parseCore (fuel + 1) .val (c :: X) =
      (if c = '-' ∨ isDigitChar c = true then
        match parseNum (c :: X) with
        | some (q2, rest2) => some (.v (.num q2), rest2)
        | none => none
      else none) := by
  show (match (c :: X).dropWhile jsonWsChar with
    | [] => none
    | 'n' :: 'u' :: 'l' :: 'l' :: rest => some (PRes.v Json.null, rest)
    | 't' :: 'r' :: 'u' :: 'e' :: rest => some (PRes.v (Json.bool true), rest)
    | 'f' :: 'a' :: 'l' :: 's' :: 'e' :: rest => some (PRes.v (Json.bool false), rest)
    | '"' :: rest =>
      (match parseStringBody rest with
      | some (body, rest2) => some (PRes.v (Json.str ⟨body⟩), rest2)
      | none => none)
    | '[' :: rest =>
      (match rest.dropWhile jsonWsChar with
      | ']' :: rest2 => some (PRes.v (Json.arr []), rest2)
      | _ =>
        match parseCore fuel .elems rest with
        | some (PRes.es es, rest2) => some (PRes.v (Json.arr es), rest2)
        | _ => none)
    | '\x7b' :: rest =>
      (match rest.dropWhile jsonWsChar with
      | '\x7d' :: rest2 => some (PRes.v (Json.obj []), rest2)
      | _ =>
        match parseCore fuel .fields rest with
        | some (PRes.fs fs, rest2) => some (PRes.v (Json.obj fs), rest2)
        | _ => none)
    | c2 :: rest =>
      if c2 = '-' ∨ isDigitChar c2 = true then
        match parseNum (c2 :: rest) with
        | some (q2, rest2) => some (PRes.v (Json.num q2), rest2)
        | none => none
      else none) = _
  rw [List.dropWhile_cons_of_neg (by simp [hws])]
  split
  · simp_all
  · simp_all
  · simp_all
  · simp_all
  · simp_all
  · simp_all
  · simp_all
  · rename_i c2 rest heq
    injection heq with h4 h5
    subst h4
    subst h5
    rfl

theorem parseCore_print : ∀ fuel : Nat,
    (∀ (v : Json) (rest : List Char), finDecJ v = true → fsize v ≤ fuel →
      numStopB rest = true →
      parseCore fuel .val (printJ v ++ rest) = some (.v v, rest)) ∧
    (∀ (es : List Json) (rest : List Char), es ≠ [] → finDecL es = true →
      fsizeL es ≤ fuel →
      parseCore fuel .elems (printElems es ++ ']' :: rest) = some (.es es, rest)) ∧
    (∀ (fs : List (String × Json)) (rest : List Char), fs ≠ [] → finDecF fs = true →
      fsizeF fs ≤ fuel →
      parseCore fuel .fields (printFields fs ++ '\x7d' :: rest) = some (.fs fs, rest)) := by
  intro fuel
  induction fuel with
  | zero =>
    refine ⟨?_, ?_, ?_⟩
    · intro v rest _ hs _
      have := fsize_pos v
      omega
    · intro es rest hne _ hs
      have := fsizeL_pos es hne
      omega
    · intro fs rest hne _ hs
      have := fsizeF_pos fs hne
      omega
  | succ fuel ih =>
    obtain ⟨ihv, ihe, ihf⟩ := ih
    refine ⟨?_, ?_, ?_⟩
    · intro v rest hfd hs hstop
      cases v with
      | null => exact parseCore_val_null fuel rest
      | bool b =>
        cases b
        · exact parseCore_val_false fuel rest
        · exact parseCore_val_true fuel rest
      | str s =>
        have hshape : printJ (.str s) ++ rest = '"' :: (escapeList s.data ++ '"' :: rest) := by
          show ('"' :: (escapeList s.data ++ ['"'])) ++ rest = _
          simp
        rw [hshape, parseCore_val_str, parseStringBody_escape]
      | num q =>
        have hts : tenSmooth q.den = true := by
          rw [finDecJ] at hfd
          exact hfd
        have hpn := parseNum_print q hts rest hstop
        rcases hnc : numChars q with _ | ⟨c, t⟩
        · exact absurd hnc (numChars_ne_nil q)
        · have hcd : c = '-' ∨ isDigitChar c = true := numChars_head q c (by rw [hnc]; rfl)
          have hws : jsonWsChar c = false := by
            rcases hcd with rfl | hd
            · decide
            · exact jsonWsChar_of_digit c hd
          have hnch : ∀ d : Char, d.toNat < 48 ∨ 57 < d.toNat → d ≠ '-' → c ≠ d := by
            intro d hdn hdm
            rcases hcd with rfl | hd
            · exact fun he => hdm he.symm
            · exact ne_of_digit c d hd hdn
          have hshape : printJ (.num q) ++ rest = c :: (t ++ rest) := by
            show numChars q ++ rest = _
            rw [hnc]
            rfl
          rw [hshape, parseCore_val_other fuel c (t ++ rest) hws
            (hnch 'n' (by decide) (by decide)) (hnch 't' (by decide) (by decide))
            (hnch 'f' (by decide) (by decide)) (hnch '"' (by decide) (by decide))
            (hnch '[' (by decide) (by decide)) (hnch '\x7b' (by decide) (by decide)),
            if_pos hcd, show c :: (t ++ rest) = numChars q ++ rest from by rw [hnc]; rfl,
            hpn]
      | arr es =>
        cases es with
        | nil =>
          show parseCore (fuel + 1) .val ('[' :: ']' :: rest) = some (.v (.arr []), rest)
          rfl
        | cons e es' =>
          have hfdL : finDecL (e :: es') = true := by
            rw [finDecJ] at hfd
            exact hfd
          have hsL : fsizeL (e :: es') ≤ fuel := by
            rw [fsize] at hs
            omega
          have hel := ihe (e :: es') rest (by simp) hfdL hsL
          obtain ⟨c, t2, hp, hws, hrb, hrb2⟩ := printElems_head (e :: es') (by simp)
          have hshape : printJ (.arr (e :: es')) ++ rest =
              '[' :: (printElems (e :: es') ++ ']' :: rest) := by
            show ('[' :: (printElems (e :: es') ++ [']'])) ++ rest = _
            simp
          have hd : (printElems (e :: es') ++ ']' :: rest).dropWhile jsonWsChar =
              c :: (t2 ++ ']' :: rest) := by
            rw [hp, List.cons_append, List.dropWhile_cons_of_neg (by simp [hws])]
          rw [hshape, parseCore_val_arr, hd]
          split
          · simp_all
          · rw [hel]
      | obj fs =>
        cases fs with
        | nil =>
          show parseCore (fuel + 1) .val ('\x7b' :: '\x7d' :: rest) =
            some (.v (.obj []), rest)
          rfl
        | cons f fs' =>
          have hfdF : finDecF (f :: fs') = true := by
            rw [finDecJ] at hfd
            exact hfd
          have hsF : fsizeF (f :: fs') ≤ fuel := by
            rw [fsize] at hs
            omega
          have hfl := ihf (f :: fs') rest (by simp) hfdF hsF
          have hpf : ∃ Y, printFields (f :: fs') = '"' :: Y := by
            obtain ⟨k, v⟩ := f
            cases fs' with
            | nil => exact ⟨_, rfl⟩
            | cons g gs => exact ⟨_, rfl⟩
          obtain ⟨Y, hpY⟩ := hpf
          have hshape : printJ (.obj (f :: fs')) ++ rest =
              '\x7b' :: (printFields (f :: fs') ++ '\x7d' :: rest) := by
            show ('\x7b' :: (printFields (f :: fs') ++ ['\x7d'])) ++ rest = _
            simp
          have hd : (printFields (f :: fs') ++ '\x7d' :: rest).dropWhile jsonWsChar =
              '"' :: (Y ++ '\x7d' :: rest) := by
            rw [hpY, List.cons_append, List.dropWhile_cons_of_neg (by decide)]
          rw [hshape, parseCore_val_obj, hd]
          split
          · simp_all
          · rw [hfl]
    · intro es rest hne hfd hs
      cases es with
      | nil => exact absurd rfl hne
      | cons e es' =>
        have hfde : finDecJ e = true ∧ finDecL es' = true := by
          rw [finDecL] at hfd
          simpa using hfd
        have hse : fsize e ≤ fuel ∧ fsizeL es' ≤ fuel := by
          rw [fsizeL] at hs
          constructor <;> omega
        cases es' with
        | nil =>
          have hv := ihv e (']' :: rest) hfde.1 hse.1 (by rfl)
          rw [show printElems [e] = printJ e from rfl, parseCore_elems_eq, hv]
          rfl
        | cons f fs2 =>
          have hel := ihe (f :: fs2) rest (by simp) hfde.2 hse.2
          have hv := ihv e (',' :: (printElems (f :: fs2) ++ ']' :: rest)) hfde.1 hse.1
            (by rfl)
          have hshape : printElems (e :: f :: fs2) ++ ']' :: rest =
              printJ e ++ (',' :: (printElems (f :: fs2) ++ ']' :: rest)) := by
            rw [show printElems (e :: f :: fs2) = printJ e ++ ',' :: printElems (f :: fs2)
              from rfl]
            simp
          rw [hshape, parseCore_elems_eq, hv]
          show (match parseCore fuel .elems (printElems (f :: fs2) ++ ']' :: rest) with
            | some (PRes.es es2, rest3) => some (PRes.es (e :: es2), rest3)
            | _ => none) = some (.es (e :: f :: fs2), rest)
          rw [hel]
    · intro fs rest hne hfd hs
      cases fs with
      | nil => exact absurd rfl hne
      | cons f fs' =>
        obtain ⟨k, v⟩ := f
        have hfde : finDecJ v = true ∧ finDecF fs' = true := by
          rw [finDecF] at hfd
          simpa using hfd
        have hsf : fsize v ≤ fuel ∧ fsizeF fs' ≤ fuel := by
          rw [fsizeF] at hs
          constructor <;> omega
        cases fs' with
        | nil =>
          have hv := ihv v ('\x7d' :: rest) hfde.1 hsf.1 (by rfl)
          have hshape : printFields [(k, v)] ++ '\x7d' :: rest =
              '"' :: (escapeList k.data ++ '"' :: (':' :: (printJ v ++ '\x7d' :: rest))) := by
            rw [show printFields [(k, v)] =
              '"' :: (escapeList k.data ++ '"' :: ':' :: printJ v) from rfl]
            simp
          rw [hshape, parseCore_fields_cons, parseStringBody_escape]
          show (match parseCore fuel .val (printJ v ++ '\x7d' :: rest) with
            | some (PRes.v v2, rest4) =>
              (match rest4.dropWhile jsonWsChar with
              | ',' :: rest5 =>
                (match parseCore fuel .fields rest5 with
                | some (PRes.fs fs2, rest6) => some (PRes.fs ((⟨k.data⟩, v2) :: fs2), rest6)
                | _ => none)
              | '\x7d' :: rest5 => some (PRes.fs [(⟨k.data⟩, v2)], rest5)
              | _ => none)
            | _ => none) = some (.fs [(k, v)], rest)
          rw [hv]
          rfl
        | cons g gs =>
          have hfl := ihf (g :: gs) rest (by simp) hfde.2 hsf.2
          have hv := ihv v (',' :: (printFields (g :: gs) ++ '\x7d' :: rest)) hfde.1 hsf.1
            (by rfl)
          have hshape : printFields ((k, v) :: g :: gs) ++ '\x7d' :: rest =
              '"' :: (escapeList k.data ++ '"' :: (':' :: (printJ v ++
                (',' :: (printFields (g :: gs) ++ '\x7d' :: rest))))) := by
            rw [show printFields ((k, v) :: g :: gs) =
              ('"' :: (escapeList k.data ++ '"' :: ':' :: printJ v)) ++
                ',' :: printFields (g :: gs) from rfl]
            simp
          rw [hshape, parseCore_fields_cons, parseStringBody_escape]
          show (match parseCore fuel .val (printJ v ++
              (',' :: (printFields (g :: gs) ++ '\x7d' :: rest))) with
            | some (PRes.v v2, rest4) =>
              (match rest4.dropWhile jsonWsChar with
              | ',' :: rest5 =>
                (match parseCore fuel .fields rest5 with
                | some (PRes.fs fs2, rest6) => some (PRes.fs ((⟨k.data⟩, v2) :: fs2), rest6)
                | _ => none)
              | '\x7d' :: rest5 => some (PRes.fs [(⟨k.data⟩, v2)], rest5)
              | _ => none)
            | _ => none) = some (.fs ((k, v) :: g :: gs), rest)
          rw [hv]
          show (match parseCore fuel .fields (printFields (g :: gs) ++ '\x7d' :: rest) with
            | some (PRes.fs fs2, rest6) => some (PRes.fs ((⟨k.data⟩, v) :: fs2), rest6)
            | _ => none) = some (.fs ((k, v) :: g :: gs), rest)
          rw [hfl]

theorem fsize_le_print : ∀ n : Nat,
    (∀ v : Json, fsize v ≤ n → fsize v ≤ (printJ v).length) ∧
    (∀ es : List Json, fsizeL es ≤ n → fsizeL es ≤ (printElems es).length + 1) ∧
    (∀ fs : List (String × Json), fsizeF fs ≤ n → fsizeF fs ≤ (printFields fs).length + 1) := by
  intro n
  induction n with
  | zero =>
    refine ⟨?_, ?_, ?_⟩
    · intro v hv
      have := fsize_pos v
      omega
    · intro es hes
      cases es with
      | nil =>
        rw [fsizeL]
        omega
      | cons e t =>
        have := fsizeL_pos (e :: t) (by simp)
        omega
    · intro fs hfs
      cases fs with
      | nil =>
        rw [fsizeF]
        omega
      | cons f t =>
        have := fsizeF_pos (f :: t) (by simp)
        omega
  | succ n ih =>
    obtain ⟨ihv, ihe, ihf⟩ := ih
    refine ⟨?_, ?_, ?_⟩
    · intro v hv
      cases v with
      | null => decide
      | bool b => cases b <;> decide
      | num q =>
        rw [fsize]
        exact List.length_pos.2 (numChars_ne_nil q)
      | str s =>
        rw [fsize]
        show 1 ≤ ('"' :: (escapeList s.data ++ ['"'])).length
        simp
      | arr es =>
        have h2 : fsizeL es ≤ n := by
          rw [fsize] at hv
          omega
        have := ihe es h2
        rw [fsize]
        have hlen : (printJ (.arr es)).length = (printElems es).length + 2 := by
          rw [show printJ (.arr es) = '[' :: (printElems es ++ [']']) from rfl]
          simp
        rw [hlen]
        omega
      | obj fs =>
        have h2 : fsizeF fs ≤ n := by
          rw [fsize] at hv
          omega
        have := ihf fs h2
        rw [fsize]
        have hlen : (printJ (.obj fs)).length = (printFields fs).length + 2 := by
          rw [show printJ (.obj fs) = '\x7b' :: (printFields fs ++ ['\x7d']) from rfl]
          simp
        rw [hlen]
        omega
    · intro es hes
      cases es with
      | nil =>
        rw [fsizeL]
        omega
      | cons e t =>
        have h1 : fsize e ≤ n := by
          rw [fsizeL] at hes
          omega
        have h2 : fsizeL t ≤ n := by
          rw [fsizeL] at hes
          omega
        have he := ihv e h1
        cases t with
        | nil =>
          have hpe : (printElems [e]).length = (printJ e).length := rfl
          rw [fsizeL, fsizeL, hpe]
          omega
        | cons f fs2 =>
          have ht := ihe (f :: fs2) h2
          have hpe : (printElems (e :: f :: fs2)).length =
              (printJ e).length + 1 + (printElems (f :: fs2)).length := by
            rw [show printElems (e :: f :: fs2) =
              printJ e ++ ',' :: printElems (f :: fs2) from rfl]
            simp
            omega
          rw [fsizeL, hpe]
          omega
    · intro fs hfs
      cases fs with
      | nil =>
        rw [fsizeF]
        omega
      | cons f t =>
        obtain ⟨k, v⟩ := f
        have h1 : fsize v ≤ n := by
          rw [fsizeF] at hfs
          omega
        have h2 : fsizeF t ≤ n := by
          rw [fsizeF] at hfs
          omega
        have he := ihv v h1
        cases t with
        | nil =>
          have hpe : (printFields [(k, v)]).length =
              (escapeList k.data).length + 3 + (printJ v).length := by
            rw [show printFields [(k, v)] =
              '"' :: (escapeList k.data ++ '"' :: ':' :: printJ v) from rfl]
            simp
            omega
          rw [fsizeF, fsizeF, hpe]
          omega
        | cons g gs =>
          have ht := ihf (g :: gs) h2
          have hpe : (printFields ((k, v) :: g :: gs)).length =
              (escapeList k.data).length + 3 + (printJ v).length + 1 +
                (printFields (g :: gs)).length := by
            rw [show printFields ((k, v) :: g :: gs) =
              ('"' :: (escapeList k.data ++ '"' :: ':' :: printJ v)) ++
                ',' :: printFields (g :: gs) from rfl]
            simp
            omega
          rw [fsizeF, hpe]
          omega

theorem jsonParse_stringify (v : Json) (h : finDecJ v = true) :
    jsonParse (jsonStringify v) = some v := by
  have hbound : fsize v ≤ (printJ v).length := (fsize_le_print (fsize v)).1 v le_rfl
  have hmaster := (parseCore_print ((printJ v).length + 1)).1 v [] h (by omega) (by rfl)
  rw [List.append_nil] at hmaster
  show (match parseCore ((printJ v).length + 1) .val (printJ v) with
    | some (PRes.v v2, rest) => if (rest.dropWhile jsonWsChar).isEmpty then some v2 else none
    | _ => none) = some v
  rw [hmaster]
  rfl

/-! ## Facade-level helper lemmas -/

theorem stringify_eq_json (v : Json) (h : v.isString = false) :
    TypeSafeStorage.stringify v = jsonStringify v := by
  cases v with
  | str s => simp [Json.isString] at h
  | null => rfl
  | bool b => rfl
  | num q => rfl
  | arr es => rfl
  | obj fs => rfl

theorem valueParser_stringify_eq (v : Json) :
    ValueParser.stringify v = TypeSafeStorage.stringify v := by
  cases v <;> rfl

theorem rawGet_rawSet_self (st : Store) (k r : String) :
    rawGet (rawSet st k r) k = some r := by
  show rawGet ((k, r) :: st) k = some r
  rw [rawGet, if_pos rfl]

theorem rawGet_rawSet_other (st : Store) (k k2 r : String) (h : k ≠ k2) :
    rawGet (rawSet st k r) k2 = rawGet st k2 := by
  show rawGet ((k, r) :: st) k2 = _
  rw [rawGet, if_neg h]

theorem getItem_setItem_ok (st : Store) (k : String) (v : Json) (hs : v.isString = false)
    (hd : finDecJ v = true) :
    TypeSafeStorage.getItem (TypeSafeStorage.setItem st k v) k = .ok v := by
  rw [TypeSafeStorage.setItem, stringify_eq_json v hs, TypeSafeStorage.getItem,
    rawGet_rawSet_self]
  show (match jsonParse (jsonStringify v) with
    | some w => Except.ok w
    | none => Except.error "SyntaxError: JSON.parse") = Except.ok v
  rw [jsonParse_stringify v hd]

theorem rawGet_rawRemove (st : Store) (k k2 : String) :
    rawGet (rawRemove st k2) k = if k = k2 then none else rawGet st k := by
  induction st with
  | nil =>
    rw [rawRemove]
    by_cases h : k = k2 <;> simp [h, rawGet]
  | cons p t ih =>
    obtain ⟨pk, pv⟩ := p
    rw [rawRemove]
    by_cases hp : pk = k2
    · rw [if_pos hp, ih]
      by_cases hk : k = k2
      · rw [if_pos hk, if_pos hk]
      · rw [if_neg hk, if_neg hk, rawGet]
        have hpk : pk ≠ k := by
          rw [hp]
          exact fun he => hk he.symm
        rw [if_neg hpk]
    · rw [if_neg hp, rawGet]
      by_cases hpk : pk = k
      · rw [if_pos hpk]
        have hk : k ≠ k2 := by
          rw [← hpk]
          exact hp
        rw [if_neg hk, rawGet, if_pos hpk]
      · rw [if_neg hpk, ih]
        by_cases hk : k = k2
        · rw [if_pos hk, if_pos hk]
        · rw [if_neg hk, if_neg hk, rawGet, if_neg hpk]

theorem parsePairs_fst (l : List (String × Option String)) :
    ∀ res : List (String × Json),
      parsePairs l = Except.ok res → res.map Prod.fst = l.map Prod.fst := by
  induction l with
  | nil =>
    intro res h
    injection h with h2
    rw [← h2]
    rfl
  | cons p t ih =>
    obtain ⟨pk, pr⟩ := p
    intro res h
    cases pr with
    | none =>
      have h2 : (parsePairs t).map (fun l2 => (pk, Json.null) :: l2) = Except.ok res := h
      cases hpt : parsePairs t with
      | error e => rw [hpt] at h2; exact absurd h2 (by simp [Except.map])
      | ok l2 =>
        rw [hpt] at h2
        have h3 : Except.ok ((pk, Json.null) :: l2) = Except.ok res := h2
        injection h3 with h4
        rw [← h4, List.map_cons, List.map_cons, ih l2 hpt]
    | some raw =>
      have h2 : (match jsonParse raw with
        | some v => (parsePairs t).map fun l2 => (pk, v) :: l2
        | none => Except.error "SyntaxError: JSON.parse") = Except.ok res := h
      cases hjp : jsonParse raw with
      | none => rw [hjp] at h2; exact absurd h2 (by simp)
      | some v =>
        rw [hjp] at h2
        cases hpt : parsePairs t with
        | error e => rw [hpt] at h2; exact absurd h2 (by simp [Except.map])
        | ok l2 =>
          rw [hpt] at h2
          have h3 : Except.ok ((pk, v) :: l2) = Except.ok res := h2
          injection h3 with h4
          rw [← h4, List.map_cons, List.map_cons, ih l2 hpt]

theorem parsePairs_cons_some (k raw : String) (v : Json) (rest : List (String × Option String))
    (hp : jsonParse raw = some v) :
    parsePairs ((k, some raw) :: rest) = (parsePairs rest).map fun l => (k, v) :: l := by
  have h : parsePairs ((k, some raw) :: rest) =
      (match jsonParse raw with
      | some v2 => (parsePairs rest).map fun l => (k, v2) :: l
      | none => Except.error "SyntaxError: JSON.parse") := rfl
  rw [h, hp]

theorem multiGet_fst (st : Store) (keys : List String) (res : List (String × Json))
    (h : TypeSafeStorage.multiGet st keys = Except.ok res) : res.map Prod.fst = keys := by
  have h2 := parsePairs_fst (rawMultiGet st keys) res h
  rw [h2, rawMultiGet, List.map_map]
  have h3 : (Prod.fst ∘ fun k : String => (k, rawGet st k)) = id := rfl
  rw [h3, List.map_id]

theorem parseValue_not_str (v : Json) (h : v.isString = false) :
    ValueParser.parseValue v = Except.ok v := by
  cases v with
  | str s => simp [Json.isString] at h
  | null => rfl
  | bool b => rfl
  | num q => rfl
  | arr es => rfl
  | obj fs => rfl

theorem parseValue_str (s : String) :
    ValueParser.parseValue (Json.str s) =
      (if ValueParser.isNumber s then
        match parseFloatQ s with
        | some q => Except.ok (Json.num q)
        | none => Except.ok (Json.num 0)
      else if ValueParser.isJSON s then
        match jsonParse s with
        | some v => Except.ok v
        | none => Except.error "SyntaxError: JSON.parse"
      else Except.ok (Json.str s)) := rfl

theorem isJSON_head (s : String) (h : ValueParser.isJSON s = true) :
    s.data.head? = some '\x7b' ∨ s.data.head? = some '[' := by
  rw [ValueParser.isJSON] at h
  simp only [Bool.or_eq_true, Bool.and_eq_true, beq_iff_eq] at h
  rcases h with ⟨h1, _⟩ | ⟨h1, _⟩
  · exact Or.inl h1
  · exact Or.inr h1

theorem parseFloatQ_head_none (s : String) (c : Char) (t : List Char) (hs : s.data = c :: t)
    (hws : jsWs c = false) (hm : c ≠ '-') (hp : c ≠ '+')
    (hd : isDigitChar c = false) (hdot : c ≠ '.') :
    parseFloatQ s = none := by
  have hdrop : (c :: t).dropWhile jsWs = c :: t := by
    rw [List.dropWhile_cons, hws]
    simp
  have hsign : readSign (c :: t) = (false, c :: t) := by
    rw [readSign]
    simp [hm, hp]
  have hspan : spanDigits (c :: t) = ([], c :: t) := by
    apply spanDigits_stop
    intro x hx
    simp only [List.head?_cons, Option.some.injEq] at hx
    rw [← hx]
    exact hd
  have hfrac : readFrac (c :: t) = ([], c :: t) := by
    rw [readFrac]
    simp [hdot]
  rw [parseFloatQ, hs]
  simp [hdrop, hsign, hspan, hfrac]

theorem isNumber_false_of_isJSON (s : String) (h : ValueParser.isJSON s = true) :
    ValueParser.isNumber s = false := by
  have hc := isJSON_head s h
  have hpf : parseFloatQ s = none := by
    rcases hc with h1 | h1
    · obtain ⟨t, ht⟩ : ∃ t, s.data = '\x7b' :: t := by
        cases hsd : s.data with
        | nil => rw [hsd] at h1; exact absurd h1 (by simp)
        | cons a b =>
          rw [hsd] at h1
          simp only [List.head?_cons, Option.some.injEq] at h1
          exact ⟨b, by rw [h1]⟩
      exact parseFloatQ_head_none s '\x7b' t ht (by decide) (by decide) (by decide)
        (by decide) (by decide)
    · obtain ⟨t, ht⟩ : ∃ t, s.data = '[' :: t := by
        cases hsd : s.data with
        | nil => rw [hsd] at h1; exact absurd h1 (by simp)
        | cons a b =>
          rw [hsd] at h1
          simp only [List.head?_cons, Option.some.injEq] at h1
          exact ⟨b, by rw [h1]⟩
      exact parseFloatQ_head_none s '[' t ht (by decide) (by decide) (by decide)
        (by decide) (by decide)
  show (match parseFloatQ s, jsToNumber s with
    | some p, some n => p == n
    | _, _ => false) = false
  rw [hpf]

theorem jsonParse_head_obj (s : String) (u : Json) (h0 : s.data.head? = some '\x7b')
    (h : jsonParse s = some u) : ∃ fs, u = Json.obj fs := by
  obtain ⟨t, hst⟩ : ∃ t, s.data = '\x7b' :: t := by
    cases hsd : s.data with
    | nil => rw [hsd] at h0; exact absurd h0 (by simp)
    | cons a b =>
      rw [hsd] at h0
      simp only [List.head?_cons, Option.some.injEq] at h0
      exact ⟨b, by rw [h0]⟩
  rw [jsonParse, hst, List.length_cons, parseCore_val_obj] at h
  split at h
  · rename_i v rest heq
    split at h
    · rename_i hrest
      injection h with h2
      subst h2
      split at heq
      · rename_i rest2 heq2
        simp only [Option.some.injEq, Prod.mk.injEq] at heq
        obtain ⟨h3, h4⟩ := heq
        injection h3 with h5
        exact ⟨[], h5.symm⟩
      · rename_i hne
        split at heq
        · rename_i fs rest2 heq3
          simp only [Option.some.injEq, Prod.mk.injEq] at heq
          obtain ⟨h3, h4⟩ := heq
          injection h3 with h5
          exact ⟨fs, h5.symm⟩
        · simp at heq
    · simp at h
  · simp at h

theorem jsonParse_head_arr (s : String) (u : Json) (h0 : s.data.head? = some '[')
    (h : jsonParse s = some u) : ∃ es, u = Json.arr es := by
  obtain ⟨t, hst⟩ : ∃ t, s.data = '[' :: t := by
    cases hsd : s.data with
    | nil => rw [hsd] at h0; exact absurd h0 (by simp)
    | cons a b =>
      rw [hsd] at h0
      simp only [List.head?_cons, Option.some.injEq] at h0
      exact ⟨b, by rw [h0]⟩
  rw [jsonParse, hst, List.length_cons, parseCore_val_arr] at h
  split at h
  · rename_i v rest heq
    split at h
    · rename_i hrest
      injection h with h2
      subst h2
      split at heq
      · rename_i rest2 heq2
        simp only [Option.some.injEq, Prod.mk.injEq] at heq
        obtain ⟨h3, h4⟩ := heq
        injection h3 with h5
        exact ⟨[], h5.symm⟩
      · rename_i hne
        split at heq
        · rename_i es rest2 heq3
          simp only [Option.some.injEq, Prod.mk.injEq] at heq
          obtain ⟨h3, h4⟩ := heq
          injection h3 with h5
          exact ⟨es, h5.symm⟩
        · simp at heq
    · simp at h
  · simp at h

/-! ## Concrete evaluations used by the spec's probe inputs -/

theorem decValue_42_0 : decValue false ['4', '2'] ['0'] false [] = 42 := by
  have h1 : foldDigits 0 ['4', '2'] = 42 := by decide
  have h2 : foldDigits 0 ['0'] = 0 := by decide
  rw [decValue]
  simp [h1, h2]

theorem parseFloatQ_42_0 : parseFloatQ "42.0" = some 42 := by
  have h : parseFloatQ "42.0" = some (decValue false ['4', '2'] ['0'] false []) := rfl
  rw [h, decValue_42_0]

theorem jsToNumber_42_0 : jsToNumber "42.0" = some 42 := by
  have h : jsToNumber "42.0" = some (decValue false ['4', '2'] ['0'] false []) := rfl
  rw [h, decValue_42_0]

theorem isNumber_42_0 : ValueParser.isNumber "42.0" = true := by
  show (match parseFloatQ "42.0", jsToNumber "42.0" with
    | some p, some n => p == n
    | _, _ => false) = true
  rw [parseFloatQ_42_0, jsToNumber_42_0]
  simp

/-- `parseValue` on the spec's probe string `"42"`: the numeric heuristic
fires and the stored text comes back as the number `42`. -/
theorem parseValue_42 : ValueParser.parseValue (Json.str "42") = Except.ok (Json.num 42) := by
  rw [parseValue_str]
  rw [if_pos (show ValueParser.isNumber "42" = true by decide)]
  rfl

/-! ## The claims -/

/-- C1 (amended): the `setItem`/`getItem` round-trip holds for every
finite-decimal value that is not a string; strings are stored raw, so the
read path re-parses them as JSON instead of returning them (see the
counterexample). -/
theorem C1_set_get_roundtrip (st : Store) (k : String) (v : Json)
    (hs : v.isString = false) (hd : finDecJ v = true) :
    TypeSafeStorage.getItem (TypeSafeStorage.setItem st k v) k = Except.ok v :=
  getItem_setItem_ok st k v hs hd

/-- C1 counterexample: the claimed round-trip fails for the string value
`"42"`: `setItem` stores the raw text `42`, and `getItem` JSON-parses it
into the number `42`. -/
theorem C1_counterexample :
    TypeSafeStorage.getItem (TypeSafeStorage.setItem [] "k" (Json.str "42")) "k" ≠
      Except.ok (Json.str "42") := by
  have h : TypeSafeStorage.getItem (TypeSafeStorage.setItem [] "k" (Json.str "42")) "k" =
      Except.ok (Json.num 42) := rfl
  rw [h]
  intro hc
  injection hc with h2
  exact Json.noConfusion h2

/-- C1 witness: the amended round-trip at the concrete value `true`. -/
theorem C1_set_get_roundtrip_witness :
    (Json.bool true).isString = false ∧ finDecJ (Json.bool true) = true ∧
    TypeSafeStorage.getItem (TypeSafeStorage.setItem [] "k" (Json.bool true)) "k" =
      Except.ok (Json.bool true) :=
  ⟨rfl, rfl, C1_set_get_roundtrip [] "k" (Json.bool true) rfl rfl⟩

/-- C2 (amended): `TypeSafeStorage.mergeItem` performs no validation at
all — every value, including the three the spec says must be rejected
(`null`, `42`, `"text"`), is forwarded to the store's merge primitive as
`(key, JSON.stringify value)`.  The repository's `ValueParser.validateJSON`
would reject all three, but no method of the facade ever calls it. -/
theorem C2_merge_no_validation :
    (∀ (key : String) (value : Json),
      TypeSafeStorage.mergeItem key value = (key, jsonStringify value)) ∧
    TypeSafeStorage.mergeItem "k" Json.null = ("k", "null") ∧
    TypeSafeStorage.mergeItem "k" (Json.num 42) = ("k", "42") ∧
    TypeSafeStorage.mergeItem "k" (Json.str "text") = ("k", "\"text\"") ∧
    ValueParser.validateJSON Json.null ≠ Except.ok () ∧
    ValueParser.validateJSON (Json.num 42) ≠ Except.ok () ∧
    ValueParser.validateJSON (Json.str "text") ≠ Except.ok () :=
  ⟨fun _ _ => rfl, rfl, rfl, rfl, fun h => Except.noConfusion h,
    fun h => Except.noConfusion h, fun h => Except.noConfusion h⟩

/-- C2 counterexample: `mergeItem` hands the argument `null` — which the
spec says must fail before reaching the store — straight to the store as
the raw pair `("k", "null")`, even though the (unused) validator rejects
it. -/
theorem C2_counterexample :
    TypeSafeStorage.mergeItem "k" Json.null = ("k", "null") ∧
    ValueParser.validateJSON Json.null ≠ Except.ok () :=
  ⟨rfl, fun h => Except.noConfusion h⟩

/-- C3 (amended): the two outcomes the spec requires to be distinguishable
are in fact conflated: a stored raw `"null"` and an absent key both make
`getItem` return the JavaScript value `null`. -/
theorem C3_null_conflated (k : String) (st : Store) (h : rawGet st k = none) :
    TypeSafeStorage.getItem [(k, "null")] k = Except.ok Json.null ∧
    TypeSafeStorage.getItem st k = Except.ok Json.null := by
  constructor
  · rw [TypeSafeStorage.getItem]
    rw [show rawGet [(k, "null")] k = some "null" by rw [rawGet, if_pos rfl]]
    rfl
  · rw [TypeSafeStorage.getItem, h]

/-- C3 counterexample: `getItem` returns bit-for-bit the same result for a
store holding the raw text `null` under the key and for a store holding
nothing. -/
theorem C3_counterexample :
    TypeSafeStorage.getItem [("k", "null")] "k" = TypeSafeStorage.getItem [] "k" := rfl

/-- C3 witness: the conflation at the concrete key and the empty store. -/
theorem C3_null_conflated_witness :
    rawGet ([] : Store) "k" = none ∧
    TypeSafeStorage.getItem [("k", "null")] "k" = Except.ok Json.null ∧
    TypeSafeStorage.getItem ([] : Store) "k" = Except.ok Json.null :=
  ⟨rfl, (C3_null_conflated "k" [] rfl).1, (C3_null_conflated "k" [] rfl).2⟩

/-- C4 (amended): the write half of the claim holds — `setItem` stores the
raw unquoted text `hello` — but the read half fails: `getItem` feeds the
raw text to `JSON.parse`, which throws, so the string never comes back. -/
theorem C4_plain_string_stored_raw (st : Store) (k : String) :
    rawGet (TypeSafeStorage.setItem st k (Json.str "hello")) k = some "hello" ∧
    TypeSafeStorage.getItem (TypeSafeStorage.setItem st k (Json.str "hello")) k =
      Except.error "SyntaxError: JSON.parse" := by
  constructor
  · exact rawGet_rawSet_self st k "hello"
  · rw [TypeSafeStorage.getItem,
      show rawGet (TypeSafeStorage.setItem st k (Json.str "hello")) k = some "hello" from
        rawGet_rawSet_self st k "hello"]
    rfl

/-- C4 counterexample: `getItem` after `setItem(k, "hello")` is a
`SyntaxError` rejection, not the string `"hello"`. -/
theorem C4_counterexample :
    TypeSafeStorage.getItem (TypeSafeStorage.setItem [] "k" (Json.str "hello")) "k" =
      Except.error "SyntaxError: JSON.parse" := rfl

/-- C5 (amended): `isNumber` accepts a string exactly when `parseFloat`
succeeds on it and agrees with the full-string `ToNumber` coercion — a
lossless-parse test, not the exact print-round-trip test the spec states
(the counterexample `"42.0"` is accepted although `String(42)` is `"42"`).
The spec's concrete probe is right: the stored text `"42"` comes back as
the number `42`. -/
theorem C5_isNumber_loose (s : String) :
    (ValueParser.isNumber s = true ↔
      ∃ q : ℚ, parseFloatQ s = some q ∧ jsToNumber s = some q) ∧
    ValueParser.parseValue (Json.str "42") = Except.ok (Json.num 42) := by
  constructor
  · show ((match parseFloatQ s, jsToNumber s with
      | some p, some n => p == n
      | _, _ => false) = true) ↔ _
    cases hp : parseFloatQ s with
    | none => simp
    | some p =>
      cases hn : jsToNumber s with
      | none => simp
      | some n =>
        show (p == n) = true ↔ ∃ q : ℚ, some p = some q ∧ some n = some q
        constructor
        · intro h
          have he : p = n := by simpa using h
          exact ⟨p, rfl, by rw [← he]⟩
        · rintro ⟨q, hq1, hq2⟩
          injection hq1 with e1
          injection hq2 with e2
          rw [e1, e2]
          simp
  · exact parseValue_42

/-- C5 counterexample: `"42.0"` parses losslessly to `42`, whose string
form `"42"` does not round-trip back to `"42.0"`, yet `isNumber` accepts
it — refuting the spec's `exactly when ... round-trips exactly` clause. -/
theorem C5_counterexample :
    ValueParser.isNumber "42.0" = true ∧ parseFloatQ "42.0" = some 42 ∧
    numToString 42 = "42" ∧ "42" ≠ "42.0" :=
  ⟨isNumber_42_0, parseFloatQ_42_0, rfl, by decide⟩

/-- C6 (amended): `multiGet` does return one pair per requested key in
request order, and the concrete positional-integrity instance holds with
`k2` written before `k1` — provided the two values are non-string
finite-decimal values; for string values the parse step changes them (see
the counterexample). -/
theorem C6_multiGet_positional (st : Store) (k1 k2 : String) (v1 v2 : Json)
    (hk : k1 ≠ k2) (hs1 : v1.isString = false) (hd1 : finDecJ v1 = true)
    (hs2 : v2.isString = false) (hd2 : finDecJ v2 = true) :
    (∀ (Y : Store) (keys : List String) (res : List (String × Json)),
      TypeSafeStorage.multiGet Y keys = Except.ok res → res.map Prod.fst = keys) ∧
    TypeSafeStorage.multiGet
      (TypeSafeStorage.setItem (TypeSafeStorage.setItem st k2 v2) k1 v1) [k1, k2] =
      Except.ok [(k1, v1), (k2, v2)] := by
  refine ⟨fun Y keys res h => multiGet_fst Y keys res h, ?_⟩
  have hr1 : rawGet (TypeSafeStorage.setItem (TypeSafeStorage.setItem st k2 v2) k1 v1) k1 =
      some (jsonStringify v1) := by
    show rawGet (rawSet (TypeSafeStorage.setItem st k2 v2) k1 (TypeSafeStorage.stringify v1)) k1 = _
    rw [rawGet_rawSet_self, stringify_eq_json v1 hs1]
  have hr2 : rawGet (TypeSafeStorage.setItem (TypeSafeStorage.setItem st k2 v2) k1 v1) k2 =
      some (jsonStringify v2) := by
    show rawGet (rawSet (rawSet st k2 (TypeSafeStorage.stringify v2)) k1
      (TypeSafeStorage.stringify v1)) k2 = _
    rw [rawGet_rawSet_other _ _ _ _ hk, rawGet_rawSet_self, stringify_eq_json v2 hs2]
  show parsePairs
    [(k1, rawGet (TypeSafeStorage.setItem (TypeSafeStorage.setItem st k2 v2) k1 v1) k1),
     (k2, rawGet (TypeSafeStorage.setItem (TypeSafeStorage.setItem st k2 v2) k1 v1) k2)] =
    Except.ok [(k1, v1), (k2, v2)]
  rw [hr1, hr2, parsePairs_cons_some _ _ _ _ (jsonParse_stringify v1 hd1),
    parsePairs_cons_some _ _ _ _ (jsonParse_stringify v2 hd2)]
  rfl

/-- C6 counterexample: the claimed instance fails for arbitrary values:
with the string value `"42"` under the first key, `multiGet` returns the
number `42` in its place (order is preserved, the value is not). -/
theorem C6_counterexample :
    TypeSafeStorage.multiGet
      (TypeSafeStorage.setItem (TypeSafeStorage.setItem [] "a" (Json.str "42")) "b"
        (Json.bool true)) ["a", "b"] ≠
      Except.ok [("a", Json.str "42"), ("b", Json.bool true)] := by
  have h : TypeSafeStorage.multiGet
      (TypeSafeStorage.setItem (TypeSafeStorage.setItem [] "a" (Json.str "42")) "b"
        (Json.bool true)) ["a", "b"] =
      Except.ok [("a", Json.num 42), ("b", Json.bool true)] := rfl
  rw [h]
  intro hc
  simp at hc

/-- C6 witness: the amended positional integrity at two concrete keys with
`"b"` written first. -/
theorem C6_multiGet_positional_witness :
    ("a" : String) ≠ "b" ∧
    TypeSafeStorage.multiGet
      (TypeSafeStorage.setItem (TypeSafeStorage.setItem [] "b" (Json.bool true)) "a" Json.null)
      ["a", "b"] = Except.ok [("a", Json.null), ("b", Json.bool true)] :=
  ⟨by decide,
    (C6_multiGet_positional [] "a" "b" Json.null (Json.bool true) (by decide) rfl rfl rfl rfl).2⟩

/-- C7: the heuristic parser treats a string as JSON exactly when its
first and last characters are a matching bracket pair; a bracket-delimited
string is never number-like, so the JSON branch is reached exactly in that
case, and a string that is neither number-like nor bracket-delimited is
returned unchanged as plain text. -/
theorem C7_heuristic_json (s : String) :
    (ValueParser.isJSON s = true ↔
      (s.data.head? = some '\x7b' ∧ s.data.getLast? = some '\x7d') ∨
      (s.data.head? = some '[' ∧ s.data.getLast? = some ']')) ∧
    (ValueParser.isJSON s = true →
      ValueParser.isNumber s = false ∧
      ValueParser.parseValue (Json.str s) =
        (match jsonParse s with
        | some v => Except.ok v
        | none => Except.error "SyntaxError: JSON.parse")) ∧
    (ValueParser.isNumber s = false → ValueParser.isJSON s = false →
      ValueParser.parseValue (Json.str s) = Except.ok (Json.str s)) := by
  refine ⟨?_, ?_, ?_⟩
  · rw [ValueParser.isJSON]
    simp
  · intro hj
    have hn := isNumber_false_of_isJSON s hj
    refine ⟨hn, ?_⟩
    rw [parseValue_str, if_neg (by simp [hn]), if_pos hj]
  · intro hn hj
    rw [parseValue_str, if_neg (by simp [hn]), if_neg (by simp [hj])]

/-- C7 witness: the plain-text fall-through at the concrete string
`"hello"`. -/
theorem C7_heuristic_json_witness :
    ValueParser.isNumber "hello" = false ∧ ValueParser.isJSON "hello" = false ∧
    ValueParser.parseValue (Json.str "hello") = Except.ok (Json.str "hello") :=
  ⟨rfl, rfl, (C7_heuristic_json "hello").2.2 rfl rfl⟩

/-- C8: batch symmetry — `multiSet` of two pairs, then `multiRemove` of
both keys, then `multiGet` of both keys returns both entries as the
absence marker (`null`). -/
theorem C8_batch_symmetry (st : Store) (k1 k2 : String) (v1 v2 : Json) :
    TypeSafeStorage.multiGet
      (TypeSafeStorage.multiRemove (TypeSafeStorage.multiSet st [(k1, v1), (k2, v2)]) [k1, k2])
      [k1, k2] = Except.ok [(k1, Json.null), (k2, Json.null)] := by
  have key1 : ∀ Y : Store, rawGet (TypeSafeStorage.multiRemove Y [k1, k2]) k1 = none := by
    intro Y
    show rawGet (rawRemove (rawRemove Y k1) k2) k1 = none
    rw [rawGet_rawRemove]
    by_cases h : k1 = k2
    · rw [if_pos h]
    · rw [if_neg h, rawGet_rawRemove, if_pos rfl]
  have key2 : ∀ Y : Store, rawGet (TypeSafeStorage.multiRemove Y [k1, k2]) k2 = none := by
    intro Y
    show rawGet (rawRemove (rawRemove Y k1) k2) k2 = none
    rw [rawGet_rawRemove, if_pos rfl]
  show parsePairs
    [(k1, rawGet (TypeSafeStorage.multiRemove (TypeSafeStorage.multiSet st [(k1, v1), (k2, v2)])
      [k1, k2]) k1),
     (k2, rawGet (TypeSafeStorage.multiRemove (TypeSafeStorage.multiSet st [(k1, v1), (k2, v2)])
      [k1, k2]) k2)] =
    Except.ok [(k1, Json.null), (k2, Json.null)]
  rw [key1, key2]
  rfl

/-- C9: the write-path serializer is the identity on strings, idempotent
(feeding its string output back returns it unchanged), and the facade's
private copy agrees with `ValueParser.stringify`. -/
theorem C9_stringify_identity_idempotent (s : String) (v : Json) :
    TypeSafeStorage.stringify (Json.str s) = s ∧
    TypeSafeStorage.stringify (Json.str (TypeSafeStorage.stringify v)) =
      TypeSafeStorage.stringify v ∧
    ValueParser.stringify v = TypeSafeStorage.stringify v :=
  ⟨rfl, rfl, valueParser_stringify_eq v⟩

/-- C10: `parseValue` returns every non-string input unchanged, and is
idempotent — whatever value a successful `parseValue` produces is a fixed
point of `parseValue` (a produced number, object or array is non-string,
and a string it leaves alone has both heuristic branches rejected). -/
theorem C10_parseValue_idempotent (v : Json) :
    (v.isString = false → ValueParser.parseValue v = Except.ok v) ∧
    (∀ w : Json, ValueParser.parseValue v = Except.ok w →
      ValueParser.parseValue w = Except.ok w) := by
  constructor
  · exact parseValue_not_str v
  · intro w h
    cases v with
    | null =>
      injection h with h2
      rw [← h2]
      rfl
    | bool b =>
      injection h with h2
      rw [← h2]
      rfl
    | num q =>
      injection h with h2
      rw [← h2]
      rfl
    | arr es =>
      injection h with h2
      rw [← h2]
      rfl
    | obj fs =>
      injection h with h2
      rw [← h2]
      rfl
    | str s =>
      rw [parseValue_str] at h
      by_cases hn : ValueParser.isNumber s = true
      · rw [if_pos hn] at h
        cases hpf : parseFloatQ s with
        | some q =>
          rw [hpf] at h
          injection h with h2
          rw [← h2]
          rfl
        | none =>
          rw [hpf] at h
          injection h with h2
          rw [← h2]
          rfl
      · rw [if_neg hn] at h
        by_cases hj : ValueParser.isJSON s = true
        · rw [if_pos hj] at h
          cases hjp : jsonParse s with
          | none => rw [hjp] at h; exact absurd h (by simp)
          | some v2 =>
            rw [hjp] at h
            injection h with h2
            subst h2
            rcases isJSON_head s hj with h1 | h1
            · obtain ⟨fs, hfs⟩ := jsonParse_head_obj s v2 h1 hjp
              rw [hfs]
              rfl
            · obtain ⟨es, hes⟩ := jsonParse_head_arr s v2 h1 hjp
              rw [hes]
              rfl
        · rw [if_neg hj] at h
          injection h with h2
          rw [← h2, parseValue_str, if_neg hn, if_neg hj]

/-- C10 witness: the non-string identity at `true`, and idempotence at the
string `"42"`, which `parseValue` turns into the number `42`, itself a
fixed point. -/
theorem C10_parseValue_idempotent_witness :
    ((Json.bool true).isString = false ∧
      ValueParser.parseValue (Json.bool true) = Except.ok (Json.bool true)) ∧
    (ValueParser.parseValue (Json.str "42") = Except.ok (Json.num 42) ∧
      ValueParser.parseValue (Json.num 42) = Except.ok (Json.num 42)) :=
  ⟨⟨rfl, (C10_parseValue_idempotent (Json.bool true)).1 rfl⟩,
    ⟨parseValue_42, (C10_parseValue_idempotent (Json.str "42")).2 (Json.num 42) parseValue_42⟩⟩
